import Mathlib

/-!
Shallow embedding of the PowerFlow core (`src/app.py`): the flow
reconstructor `load_data`, the temporal aggregator `aggregate`, and the
formatting helper `format_mwh`, together with proofs of the specified
properties.

Modelling conventions:
* A dataframe is an ordered list of named columns (`Frame`).  Column
  assignment (`setCol`) replaces an existing column in place and appends a
  fresh one at the end, as pandas does.
* Numeric cells are exact rationals; a missing cell (`NaN`) is `none`.
  The CSV data consists of decimal numerals, which are exact rationals, so
  no behaviour relevant to the specified properties is lost.
* Timestamps are whole hours since 1970-01-01T00:00 (`none` = `NaT`).  A raw
  timestamp column (`"datetime"` / `"Date"`) carries the image of each cell
  under `pd.to_datetime(-, errors="coerce")`, which is exactly how those raw
  cells are consumed; cells of any other dtype have no datetime parse in
  this model.
* `aggregate` materialises only non-empty resample buckets; the empty gap
  buckets produced by pandas carry all-zero sums and do not take part in any
  stated property.  Bucket order (pandas: chronological) is likewise
  irrelevant to the stated properties and follows `List.dedup` here.
-/

attribute [local semireducible] Rat.add Rat.sub Rat.mul Rat.inv Rat.ofScientific

namespace PowerFlow

/-! ## Civil calendar (Gregorian, days since 1970-01-01) -/

/-- Gregorian leap-year test. -/
def isLeap (y : Nat) : Bool := (y % 4 == 0 && y % 100 != 0) || y % 400 == 0

/-- Number of days of year `y`. -/
def daysOfYear (y : Nat) : Nat := if isLeap y then 366 else 365

/-- The twelve month lengths of year `y`. -/
def monthLens (y : Nat) : List Nat :=
  [31, if isLeap y then 29 else 28, 31, 30, 31, 30, 31, 31, 30, 31, 30, 31]

/-- Walk forward one year at a time from 1970; the fuel argument makes the
recursion structural (each step consumes at least 365 days, so `d + 1` fuel
is always enough). -/
def yearWalk : Nat → Nat → Nat → Nat × Nat
  | 0, y, d => (y, d)
  | fuel + 1, y, d =>
    if d < daysOfYear y then (y, d) else yearWalk fuel (y + 1) (d - daysOfYear y)

/-- Walk along the month lengths of a year. -/
def monthWalk : List Nat → Nat → Nat → Nat × Nat
  | [], m, d => (m, d)
  | len :: rest, m, d =>
    if d < len then (m, d) else monthWalk rest (m + 1) (d - len)

/-- Convert days since 1970-01-01 to `(year, month, day-of-month)`. -/
def civilFromDays (d : Nat) : Nat × Nat × Nat :=
  let yr := yearWalk (d + 1) 1970 d
  let mr := monthWalk (monthLens yr.1) 1 yr.2
  (yr.1, mr.1, mr.2 + 1)

/-- `timestamp.dt.year` for a timestamp in hours since the epoch. -/
def yearOfTs (t : Nat) : Nat := (civilFromDays (t / 24)).1

/-- `timestamp.dt.month` (as part of the `to_period("M")` label). -/
def monthOfTs (t : Nat) : Nat := (civilFromDays (t / 24)).2.1

/-- `timestamp.dt.day`. -/
def dayOfTs (t : Nat) : Nat := (civilFromDays (t / 24)).2.2

/-- `timestamp.dt.hour`. -/
def hourOfTs (t : Nat) : Nat := t % 24

/-- Days since the epoch of January 1st of year `y`. -/
def daysBeforeYear (y : Nat) : Nat :=
  ((List.range (y - 1970)).map (fun k => daysOfYear (1970 + k))).sum

/-- Days of year `y` spent before month `m` starts. -/
def daysBeforeMonth (y m : Nat) : Nat := ((monthLens y).take (m - 1)).sum

/-- Day index (since the epoch) of the last day of month `m` of year `y`:
the label pandas gives a `resample("M")` bucket. -/
def monthEndDay (y m : Nat) : Nat :=
  daysBeforeYear y + daysBeforeMonth y m + ((monthLens y).getD (m - 1) 31) - 1

/-! ## The formatting helper `format_mwh` -/

/-- The rendered result of `format_mwh`, abstracted to the chosen scale and
the rounded mantissa: `mwh u` renders `u` MWh (integer rounding), `gwh t`
renders `t / 10` GWh, `twh t` renders `t / 10` TWh, and `placeholder` is the
em-dash string returned for a missing value. -/
inductive Scaled where
  | placeholder : Scaled
  | mwh : ℤ → Scaled
  | gwh : ℤ → Scaled
  | twh : ℤ → Scaled
deriving DecidableEq, Repr

/-- Floor of a rational as an integer. -/
def ratFloor (q : ℚ) : ℤ := q.num.fdiv q.den

/-- Round-half-to-even, the rounding used by Python's fixed-point `format`. -/
def roundHalfEven (q : ℚ) : ℤ :=
  let f := ratFloor q
  let r := q - (f : ℚ)
  if r < 1/2 then f
  else if 1/2 < r then f + 1
  else if f % 2 = 0 then f else f + 1

/-- `format_mwh`: scale thresholds on the magnitude of the input, with a
placeholder for a missing value.  The mantissa of the two scaled branches is
kept to one decimal, so it is recorded in tenths. -/
def formatMwh : Option ℚ → Scaled
  | none => .placeholder
  | some x =>
    if 1000000 ≤ |x| then .twh (roundHalfEven (10 * x / 1000000))
    else if 1000 ≤ |x| then .gwh (roundHalfEven (10 * x / 1000))
    else .mwh (roundHalfEven x)

/-! ## Frames -/

/-- A dataframe column: exact numeric cells, datetime cells (hours since the
epoch), date cells (days since the epoch, produced by `.dt.date`) or
year-month labels (produced by `.dt.to_period("M").astype(str)`; `none`
stands for the `"NaT"` label of a missing timestamp). -/
inductive ColData where
  | nums : List (Option ℚ) → ColData
  | dts : List (Option Nat) → ColData
  | dates : List (Option Nat) → ColData
  | months : List (Option (Nat × Nat)) → ColData
deriving DecidableEq, Repr

/-- Number of rows of a column. -/
def colLen : ColData → Nat
  | .nums vs => vs.length
  | .dts vs => vs.length
  | .dates vs => vs.length
  | .months vs => vs.length

/-- The cells of a numeric column. -/
def asNums : ColData → Option (List (Option ℚ))
  | .nums vs => some vs
  | _ => none

/-- `pd.to_datetime(col, errors="coerce")`.  A raw timestamp column carries
its parse image (`dts`); a date column parses to midnight of each day; cells
of the remaining dtypes do not stand for datetimes in the modelled data and
coerce to `NaT`. -/
def toDtsCoerce : ColData → List (Option Nat)
  | .dts vs => vs
  | .dates vs => vs.map (fun o => o.map (fun d => d * 24))
  | .nums vs => vs.map (fun _ => none)
  | .months vs => vs.map (fun _ => none)

/-- A dataframe: named columns in display order. -/
abbrev Frame := List (String × ColData)

/-- Column lookup by name (pandas names are unique; first match). -/
def getCol : Frame → String → Option ColData
  | [], _ => none
  | (nm, cd) :: rest, k => if nm = k then some cd else getCol rest k

/-- Numeric-column lookup. -/
def getNums (df : Frame) (k : String) : Option (List (Option ℚ)) :=
  (getCol df k).bind asNums

/-- Column assignment: replace in place, else append (pandas semantics). -/
def setCol : Frame → String → ColData → Frame
  | [], k, v => [(k, v)]
  | (nm, cd) :: rest, k, v =>
    if nm = k then (k, v) :: rest else (nm, cd) :: setCol rest k v

/-- `pattern.isPrefixOf cs` over raw character lists (models Python's
`str.startswith`). -/
def listStarts : List Char → List Char → Bool
  | [], _ => true
  | _ :: _, [] => false
  | a :: as, b :: bs => a == b && listStarts as bs

/-- `c.startswith("net_")`. -/
def isNetCol (nm : String) : Bool := listStarts "net_".data nm.data

/-- Drop every column whose name begins with the `net_` marker. -/
def dropNet (df : Frame) : Frame := df.filter (fun p => !(isNetCol p.1))

/-- Every column of the frame has exactly `n` rows. -/
def WF (df : Frame) (n : Nat) : Prop := ∀ p ∈ df, colLen p.2 = n

/-! ## The flow reconstructor `load_data` -/

/-- `df["Tranche horaire ..."].astype(float).fillna(0).astype(int)`:
numpy's cast to int truncates toward zero. -/
def ratTruncToInt (q : ℚ) : ℤ := q.num.tdiv q.den

/-- `.clip(lower=0, upper=23)`. -/
def clampHour (z : ℤ) : Nat := (max 0 (min 23 z)).toNat

/-- Hour-slot coercion: `astype(float).fillna(0).astype(int).clip(0, 23)`;
a missing slot becomes hour 0. -/
def coerceHour (x : Option ℚ) : Nat := clampHour (ratTruncToInt (x.getD 0))

/-- The statically configured partners: `(code, export column, import
column)`. -/
def partnerConfigs : List (String × String × String) :=
  [("GBR", "FR vers GB (MWh)", "GB vers FR (MWh)"),
   ("CHE", "FR vers CH (MWh)", "CH vers FR (MWh)"),
   ("ITA", "FR vers IT (MWh)", "IT vers FR (MWh)"),
   ("ESP", "FR vers ES (MWh)", "ES vers FR (MWh)"),
   ("CWE/Core", "FR->CWE/Core", "CWE/Core->FR")]

/-- `f"net_{code}"`. -/
def netName (code : String) : String := "net_" ++ code

/-- Row-wise `fillna(0).abs()` difference of an export and an import
column: `net = |export| - |import|`. -/
def zipNet (ev iv : List (Option ℚ)) : List (Option ℚ) :=
  List.zipWith (fun a b => some (|a.getD 0| - |b.getD 0|)) ev iv

/-- The partner loop of `load_data`: for each configured partner whose two
raw columns are both present, assign `net_<code>`. -/
def addNetsFold : List (String × String × String) → Frame → Frame
  | [], df => df
  | (code, ec, ic) :: rest, df =>
    match getNums df ec, getNums df ic with
    | some ev, some iv => addNetsFold rest (setCol df (netName code) (.nums (zipNet ev iv)))
    | _, _ => addNetsFold rest df

/-- The list of net columns the partner loop produces, as a function of the
flow-column lookups alone. -/
def newNets (cfgs : List (String × String × String))
    (look : String → Option (List (Option ℚ))) : List (String × List (Option ℚ)) :=
  cfgs.filterMap (fun c =>
    match look c.2.1, look c.2.2 with
    | some ev, some iv => some (netName c.1, zipNet ev iv)
    | _, _ => none)

/-- `[c for c in df.columns if c.startswith("net_")]` with the cells of each
such column (all of them numeric at the point of use). -/
def netColsOf (df : Frame) : List (String × List (Option ℚ)) :=
  df.filterMap (fun p =>
    match p with
    | (nm, .nums vs) => if isNetCol nm then some (nm, vs) else none
    | _ => none)

/-- `df[net_cols].sum(axis=1)` at row `i` (pandas sums skip `NaN`). -/
def rowTotal (nets : List (String × List (Option ℚ))) (i : Nat) : ℚ :=
  (nets.map (fun p => (p.2.getD i none).getD 0)).sum

/-- The recomputed `net_total` column over `n` rows. -/
def netTotalCol (nets : List (String × List (Option ℚ))) (n : Nat) : List (Option ℚ) :=
  (List.range n).map (fun i => some (rowTotal nets i))

/-- Calendar enrichment: rebuild `date`, `year`, `month`, `day`, `hour`
strictly from the resolved `datetime` column. -/
def addCalendar (df : Frame) (dt : List (Option Nat)) : Frame :=
  let d1 := setCol df "date" (.dates (dt.map (fun o => o.map (fun t => t / 24))))
  let d2 := setCol d1 "year" (.nums (dt.map (fun o => o.map (fun t => (yearOfTs t : ℚ)))))
  let d3 := setCol d2 "month" (.months (dt.map (fun o => o.map (fun t => (yearOfTs t, monthOfTs t)))))
  let d4 := setCol d3 "day" (.nums (dt.map (fun o => o.map (fun t => (dayOfTs t : ℚ)))))
  setCol d4 "hour" (.nums (dt.map (fun o => o.map (fun t => (hourOfTs t : ℚ)))))

/-- The raw name of the hour-slot column. -/
def trancheCol : String := "Tranche horaire du programme d'échange"

/-- Timestamp resolution of `load_data`: parse a combined `datetime` column
if present, else compose `Date + hour-slot`, else fail.  Returns the frame
with its columns updated as in the source together with the resolved
timestamp column.  (In the split schema a non-numeric hour-slot column would
make `astype(float)` raise, which is an aborted load as well.) -/
def resolveDT (df : Frame) : Except String (Frame × List (Option Nat)) :=
  match getCol df "datetime" with
  | some c =>
    let dt := toDtsCoerce c
    .ok (setCol df "datetime" (.dts dt), dt)
  | none =>
    match getCol df "Date", getCol df trancheCol with
    | some dc, some tc =>
      match asNums tc with
      | some hvs =>
        let dvs := toDtsCoerce dc
        let hrs := hvs.map coerceHour
        let dt := List.zipWith (fun d h => d.map (fun x => x + h)) dvs hrs
        let e1 := setCol df "Date" (.dts dvs)
        let e2 := setCol e1 "hour" (.nums (hrs.map (fun (h : Nat) => some (h : ℚ))))
        .ok (setCol e2 "datetime" (.dts dt), dt)
      | none => .error "hour-slot column failed numeric coercion"
    | _, _ =>
      .error "Cannot construct 'datetime' – expected either 'datetime' or ('Date', 'Tranche horaire du programme d'échange')."


/-- `load_data` after the file read: timestamp resolution, the all-`NaT`
guard, dropping stale `net_*` columns, the partner loop, the no-flow-data
guard, `net_total` recomputation and calendar enrichment. -/
def loadData (df : Frame) : Except String Frame :=
  match resolveDT df with
  | .error e => .error e
  | .ok (df1, dt) =>
    if dt.all Option.isNone then
      .error "All 'datetime' values are NaT after conversion."
    else
      let df3 := addNetsFold partnerConfigs (dropNet df1)
      let nets := netColsOf df3
      if nets.isEmpty then
        .error "No net_* columns could be constructed – check that the expected export/import columns exist."
      else
        .ok (addCalendar (setCol df3 "net_total" (.nums (netTotalCol nets dt.length))) dt)

/-! ## The temporal aggregator -/

/-- The caller-chosen granularity token: `H`, `D`, `W`, `M`. -/
inductive Freq where
  | H : Freq
  | D : Freq
  | W : Freq
  | M : Freq
deriving DecidableEq, Repr

/-- The resample bucket a timestamp falls into: its hour, its day, its
Sunday-anchored week (1970-01-04, day 3, was a Sunday) or its calendar
month (encoded `year * 12 + month - 1`). -/
def bucketKey : Freq → Nat → Nat
  | .H, t => t
  | .D, t => t / 24
  | .W, t => (t / 24 + 3) / 7
  | .M, t => yearOfTs t * 12 + (monthOfTs t - 1)

/-- The timestamp pandas labels a bucket with: bucket start for `H`/`D`, the
closing Sunday for `W`, the last day of the month for `M`. -/
def bucketLabel : Freq → Nat → Nat
  | .H, k => k
  | .D, k => k * 24
  | .W, k => (7 * k + 3) * 24
  | .M, k => monthEndDay (k / 12) (k % 12 + 1) * 24

/-- The name families whose columns are summed by `aggregate`; every other
column is dropped. -/
def aggMarkers : List String :=
  ["FR vers", "GB vers", "CH vers", "IT vers", "ES vers",
   "Export France", "Import France", "net_", "FR->CWE", "CWE/Core->FR"]

/-- `c.startswith(tuple(aggMarkers))`. -/
def aggKeep (nm : String) : Bool := aggMarkers.any (fun p => listStarts p.data nm.data)

/-- The columns `aggregate` sums (all of them numeric in a canonical
frame), in frame order. -/
def keptCols (df : Frame) : List (String × List (Option ℚ)) :=
  df.filterMap (fun p =>
    match p with
    | (nm, .nums vs) => if aggKeep nm then some (nm, vs) else none
    | _ => none)

/-- The rows that survive `set_index("datetime").resample(...)` — those with
a resolved timestamp — as `(bucket, value)` pairs for one column. -/
def validPairs (dt : List (Option Nat)) (vs : List (Option ℚ)) (g : Freq) : List (Nat × ℚ) :=
  (dt.zip vs).filterMap (fun p =>
    match p.1 with
    | some t => some (bucketKey g t, p.2.getD 0)
    | none => none)

/-- The sum a bucket receives from one column (pandas group sums skip
`NaN`). -/
def bucketSum (dt : List (Option Nat)) (vs : List (Option ℚ)) (g : Freq) (k : Nat) : ℚ :=
  (((validPairs dt vs g).filter (fun p => p.1 == k)).map (fun p => p.2)).sum

/-- The non-empty buckets of the resample. -/
def bucketKeys (dt : List (Option Nat)) (g : Freq) : List Nat :=
  ((dt.filterMap id).map (bucketKey g)).dedup

/-- `aggregate`: group by resample bucket on `datetime`, sum every column of
the known flow/net name families, then re-derive `date`, `month`, `year`
from each bucket's label timestamp. -/
def aggregate (df : Frame) (g : Freq) : Frame :=
  let dt := match getCol df "datetime" with
            | some (.dts vs) => vs
            | _ => []
  let kept := keptCols df
  let ks := bucketKeys dt g
  ("datetime", ColData.dts (ks.map (fun k => some (bucketLabel g k)))) ::
    kept.map (fun p => (p.1, ColData.nums (ks.map (fun k => some (bucketSum dt p.2 g k))))) ++
    [("date", ColData.dates (ks.map (fun k => some (bucketLabel g k / 24)))),
     ("month", ColData.months (ks.map (fun k => some (yearOfTs (bucketLabel g k), monthOfTs (bucketLabel g k))))),
     ("year", ColData.nums (ks.map (fun k => some (yearOfTs (bucketLabel g k) : ℚ))))]

/-- Sum of one column over the rows whose timestamp resolved. -/
def validSum (dt : List (Option Nat)) (vs : List (Option ℚ)) : ℚ :=
  ((dt.zip vs).filterMap (fun p =>
    match p.1 with
    | some _ => some (p.2.getD 0)
    | none => none)).sum

/-- The canonical fields of §3: resolved timestamp, per-partner nets, the
total, and the derived calendar columns. -/
def canonNames : List String :=
  ["datetime", "net_GBR", "net_CHE", "net_ITA", "net_ESP", "net_CWE/Core",
   "net_total", "date", "year", "month", "day", "hour"]

/-- Restriction of a load result to the canonical fields. -/
def canonOf (r : Except String Frame) : Except String (List (String × Option ColData)) :=
  r.map (fun o => canonNames.map (fun k => (k, getCol o k)))

instance : DecidableEq (Except String Frame) := fun a b =>
  match a, b with
  | .ok x, .ok y => decidable_of_iff (x = y) (by simp)
  | .error x, .error y => decidable_of_iff (x = y) (by simp)
  | .ok _, .error _ => isFalse (by simp)
  | .error _, .ok _ => isFalse (by simp)

instance (df : Frame) (n : Nat) : Decidable (WF df n) :=
  decidable_of_iff (∀ p ∈ df, colLen p.2 = n) Iff.rfl

/-! ## Sample frames used to witness the claims on concrete data -/

/-- A two-row combined-schema raw table; the second row's timestamp does
not parse, and its export cell is missing. -/
def wBase : Frame :=
  [("datetime", .dts [some 10, none]),
   ("FR vers GB (MWh)", .nums [some 100, none]),
   ("GB vers FR (MWh)", .nums [some (-40), some 5])]

/-- The canonical table `wBase` loads to. -/
def wBaseOut : Frame :=
  match loadData wBase with
  | .ok o => o
  | .error _ => []

/-- Shared flow columns of the one-row schema-equivalence witness pair. -/
def wRest : Frame :=
  [("FR vers GB (MWh)", .nums [some 7]), ("GB vers FR (MWh)", .nums [some 2])]

/-- One-row split-schema date column (1970-01-03T00:00). -/
def wDs : List (Option Nat) := [some 48]

/-- One-row split-schema hour-slot column (out of range, clamps to 23). -/
def wHs : List (Option ℚ) := [some 30]

/-- The one-row split-schema table built from `wDs`, `wHs` and `wRest`. -/
def wSplit : Frame := ("Date", ColData.dts wDs) :: (trancheCol, ColData.nums wHs) :: wRest

/-- A split-schema table whose hour-slot column is not numeric (its cell
failed numeric coercion), so `astype(float)` raises. -/
def wBadHour : Frame :=
  [("Date", ColData.dts [some 48]), (trancheCol, ColData.dts [none])]

/-- A raw table whose timestamp column never parses. -/
def wAllNaT : Frame := [("datetime", .dts [none, none])]

/-- A raw table with a valid timestamp but no recognised flow pair. -/
def wNoFlow : Frame :=
  [("datetime", .dts [some 5]), ("Solde (MWh)", .nums [some 1])]

/-- A three-row canonical-shaped table for the aggregation witness. -/
def wAgg : Frame :=
  [("datetime", .dts [some 0, some 1, some 25]),
   ("net_total", .nums [some 2, some 3, some 4])]

/-! ## Frame lemmas -/

theorem getCol_setCol_self (df : Frame) (k : String) (v : ColData) :
    getCol (setCol df k v) k = some v := by
  induction df with
  | nil => simp [setCol, getCol]
  | cons hd tl ih =>
    obtain ⟨nm, cd⟩ := hd
    by_cases h : nm = k
    · simp [setCol, h, getCol]
    · simp [setCol, h, getCol, ih]

theorem getCol_setCol_ne (df : Frame) (k j : String) (v : ColData) (h : k ≠ j) :
    getCol (setCol df k v) j = getCol df j := by
  induction df with
  | nil => simp [setCol, getCol, h]
  | cons hd tl ih =>
    obtain ⟨nm, cd⟩ := hd
    by_cases hk : nm = k
    · subst hk; simp [setCol, getCol, h, ih]
    · simp [setCol, hk, getCol, ih]

theorem getCol_mem (df : Frame) (k : String) (cd : ColData) (h : getCol df k = some cd) :
    (k, cd) ∈ df := by
  induction df with
  | nil => simp [getCol] at h
  | cons hd tl ih =>
    obtain ⟨nm, cd2⟩ := hd
    by_cases hk : nm = k
    · subst hk
      simp [getCol] at h
      simp [h]
    · simp [getCol, hk] at h
      exact List.mem_cons_of_mem _ (ih h)

theorem getCol_skip (a b : Frame) (k : String) (h : ∀ p ∈ a, p.1 ≠ k) :
    getCol (a ++ b) k = getCol b k := by
  induction a with
  | nil => simp
  | cons hd tl ih =>
    have h1 : hd.1 ≠ k := h hd (List.mem_cons_self _ _)
    obtain ⟨nm, cd⟩ := hd
    simp only [List.cons_append, getCol, h1, if_neg h1]
    exact ih (fun p hp => h p (List.mem_cons_of_mem _ hp))

theorem getCol_eq_none (df : Frame) (k : String) (h : ∀ p ∈ df, p.1 ≠ k) :
    getCol df k = none := by
  have h2 := getCol_skip df [] k h
  simpa using h2

theorem getCol_append_some (a b : Frame) (k : String) (v : ColData)
    (h : getCol a k = some v) : getCol (a ++ b) k = some v := by
  induction a with
  | nil => simp [getCol] at h
  | cons hd tl ih =>
    obtain ⟨nm, cd⟩ := hd
    by_cases hk : nm = k
    · simp [getCol, hk] at h ⊢; exact h
    · simp [getCol, hk] at h ⊢; exact ih h

theorem getCol_append_none (a b : Frame) (k : String) (h : getCol a k = none) :
    getCol (a ++ b) k = getCol b k := by
  induction a with
  | nil => simp
  | cons hd tl ih =>
    obtain ⟨nm, cd⟩ := hd
    by_cases hk : nm = k
    · simp [getCol, hk] at h
    · simp [getCol, hk] at h ⊢; exact ih h

theorem setCol_of_absent (df : Frame) (k : String) (v : ColData)
    (h : ∀ p ∈ df, p.1 ≠ k) : setCol df k v = df ++ [(k, v)] := by
  induction df with
  | nil => simp [setCol]
  | cons hd tl ih =>
    have h1 : hd.1 ≠ k := h hd (List.mem_cons_self _ _)
    obtain ⟨nm, cd⟩ := hd
    simp only [setCol, if_neg h1, List.cons_append, List.cons.injEq, true_and]
    exact ih (fun p hp => h p (List.mem_cons_of_mem _ hp))

theorem ne_of_net_status {a b : String} (ha : isNetCol a = true) (hb : isNetCol b = false) :
    a ≠ b := by
  intro h; rw [h] at ha; rw [ha] at hb; cases hb

theorem dropNet_getCol (df : Frame) (k : String) (h : isNetCol k = false) :
    getCol (dropNet df) k = getCol df k := by
  induction df with
  | nil => simp [dropNet, getCol]
  | cons hd tl ih =>
    obtain ⟨nm, cd⟩ := hd
    by_cases hn : isNetCol nm
    · have hne : nm ≠ k := ne_of_net_status hn h
      simp [dropNet, List.filter, hn, getCol, hne] at ih ⊢
      exact ih
    · simp only [Bool.not_eq_true] at hn
      simp [dropNet, List.filter, hn, getCol] at ih ⊢
      by_cases hk : nm = k
      · simp [hk]
      · simp [hk, ih]

theorem dropNet_setCol (df : Frame) (k : String) (v : ColData) (h : isNetCol k = false) :
    dropNet (setCol df k v) = setCol (dropNet df) k v := by
  induction df with
  | nil => simp [setCol, dropNet, List.filter, h]
  | cons hd tl ih =>
    obtain ⟨nm, cd⟩ := hd
    by_cases hk : nm = k
    · subst hk
      simp [setCol, dropNet, List.filter, h]
    · by_cases hn : isNetCol nm
      · have : ¬ ((nm, cd).1 = k) := hk
        simp [setCol, hk, dropNet, List.filter, hn] at ih ⊢
        exact ih
      · simp only [Bool.not_eq_true] at hn
        simp [setCol, hk, dropNet, List.filter, hn] at ih ⊢
        simp [ih]

theorem dropNet_idem (df : Frame) : dropNet (dropNet df) = dropNet df := by
  simp [dropNet, List.filter_filter]

theorem dropNet_netFree (df : Frame) : ∀ p ∈ dropNet df, isNetCol p.1 = false := by
  intro p hp
  have h2 := List.of_mem_filter hp
  simpa using h2

theorem netColsOf_dropNet (df : Frame) : netColsOf (dropNet df) = [] := by
  induction df with
  | nil => rfl
  | cons hd tl ih =>
    obtain ⟨nm, cd⟩ := hd
    by_cases hn : isNetCol nm
    · simp [dropNet, List.filter, hn] at ih ⊢
      exact ih
    · simp only [Bool.not_eq_true] at hn
      cases cd <;> simp [dropNet, List.filter, hn, netColsOf, List.filterMap] at ih ⊢ <;> simpa [netColsOf, dropNet] using ih

theorem WF_setCol (df : Frame) (n : Nat) (k : String) (v : ColData)
    (hwf : WF df n) (hv : colLen v = n) : WF (setCol df k v) n := by
  induction df with
  | nil =>
    intro p hp
    simp [setCol] at hp
    simp [hp, hv]
  | cons hd tl ih =>
    obtain ⟨nm, cd⟩ := hd
    have htl : WF tl n := fun p hp => hwf p (List.mem_cons_of_mem _ hp)
    by_cases hk : nm = k
    · intro p hp
      simp [setCol, hk] at hp
      rcases hp with hp | hp
      · simp [hp, hv]
      · exact htl p hp
    · intro p hp
      simp only [setCol, if_neg hk] at hp
      rcases List.mem_cons.1 hp with hp | hp
      · exact hwf p (by simp [hp])
      · exact ih htl p hp

theorem WF_dropNet (df : Frame) (n : Nat) (hwf : WF df n) : WF (dropNet df) n :=
  fun p hp => hwf p (List.mem_of_mem_filter hp)

theorem WF_append (a b : Frame) (n : Nat) (ha : WF a n) (hb : WF b n) : WF (a ++ b) n := by
  intro p hp
  rcases List.mem_append.1 hp with hp | hp
  · exact ha p hp
  · exact hb p hp

theorem toDtsCoerce_length (cd : ColData) : (toDtsCoerce cd).length = colLen cd := by
  cases cd <;> simp [toDtsCoerce, colLen]

theorem asNums_some (cd : ColData) (vs : List (Option ℚ)) (h : asNums cd = some vs) :
    cd = .nums vs := by
  cases cd <;> simp [asNums] at h <;> simp [h]

theorem getNums_length (df : Frame) (n : Nat) (k : String) (vs : List (Option ℚ))
    (hwf : WF df n) (h : getNums df k = some vs) : vs.length = n := by
  simp only [getNums, Option.bind] at h
  cases hc : getCol df k with
  | none => rw [hc] at h; simp at h
  | some cd =>
    rw [hc] at h
    have hmem := getCol_mem df k cd hc
    have hlen := hwf _ hmem
    have := asNums_some cd vs h
    subst this
    simpa [colLen] using hlen

theorem getD_map_opt {α β : Type} (l : List (Option α)) (f : α → β) (i : Nat) :
    ((l.map (fun o => o.map f)).getD i none) = (l.getD i none).map f := by
  induction l generalizing i with
  | nil => simp
  | cons hd tl ih =>
    cases i with
    | zero => simp
    | succ j => simpa using ih j

theorem zipNet_getD (ev iv : List (Option ℚ)) (i : Nat)
    (hi : i < ev.length) (hj : i < iv.length) :
    (zipNet ev iv).getD i none
      = some (|(ev.getD i none).getD 0| - |(iv.getD i none).getD 0|) := by
  induction ev generalizing iv i with
  | nil => simp at hi
  | cons e et ih =>
    cases iv with
    | nil => simp at hj
    | cons f ft =>
      cases i with
      | zero => simp [zipNet]
      | succ j =>
        simp only [List.length_cons, Nat.succ_lt_succ_iff] at hi hj
        simpa [zipNet] using ih ft j hi hj

theorem netTotalCol_getD (nets : List (String × List (Option ℚ))) (n i : Nat) (h : i < n) :
    (netTotalCol nets n).getD i none = some (rowTotal nets i) := by
  simp only [netTotalCol]
  rw [List.getD_eq_getElem?_getD, List.getElem?_map, List.getElem?_range h]
  simp

/-! ## Partner-configuration facts (checked by computation) -/

theorem pc_flows_not_net :
    ∀ c ∈ partnerConfigs, isNetCol c.2.1 = false ∧ isNetCol c.2.2 = false := by decide

theorem pc_net_is_net : ∀ c ∈ partnerConfigs, isNetCol (netName c.1) = true := by decide

theorem pc_net_distinct :
    partnerConfigs.Pairwise (fun a b => netName a.1 ≠ netName b.1) := by decide

theorem pc_net_ne_flows :
    ∀ a ∈ partnerConfigs, ∀ b ∈ partnerConfigs,
      netName a.1 ≠ b.2.1 ∧ netName a.1 ≠ b.2.2 := by decide

theorem pc_net_ne_special :
    ∀ c ∈ partnerConfigs,
      netName c.1 ≠ "datetime" ∧ netName c.1 ≠ "Date" ∧ netName c.1 ≠ "hour" ∧
      netName c.1 ≠ trancheCol ∧ netName c.1 ≠ "net_total" ∧ netName c.1 ≠ "date" ∧
      netName c.1 ≠ "year" ∧ netName c.1 ≠ "month" ∧ netName c.1 ≠ "day" := by decide

theorem pc_flow_ne_special :
    ∀ c ∈ partnerConfigs,
      (c.2.1 ≠ "datetime" ∧ c.2.1 ≠ "Date" ∧ c.2.1 ≠ "hour" ∧ c.2.1 ≠ trancheCol) ∧
      (c.2.2 ≠ "datetime" ∧ c.2.2 ≠ "Date" ∧ c.2.2 ≠ "hour" ∧ c.2.2 ≠ trancheCol) := by decide

/-! ## The partner loop -/

theorem addNetsFold_getCol_ne (cfgs : List (String × String × String)) (df : Frame)
    (k : String) (h : ∀ c ∈ cfgs, netName c.1 ≠ k) :
    getCol (addNetsFold cfgs df) k = getCol df k := by
  induction cfgs generalizing df with
  | nil => rfl
  | cons c rest ih =>
    obtain ⟨code, ec, ic⟩ := c
    have hh : netName code ≠ k := h _ (List.mem_cons_self _ _)
    have ht : ∀ c ∈ rest, netName c.1 ≠ k := fun c hc => h c (List.mem_cons_of_mem _ hc)
    simp only [addNetsFold]
    cases he : getNums df ec with
    | none => exact ih _ ht
    | some ev =>
      cases hi : getNums df ic with
      | none => exact ih _ ht
      | some iv =>
        rw [ih _ ht, getCol_setCol_ne _ _ _ _ hh]

theorem getCol_net_tail (df tail : Frame) (k : String)
    (htail : ∀ p ∈ tail, isNetCol p.1 = true) (hk : isNetCol k = false) :
    getCol (df ++ tail) k = getCol df k := by
  cases hc : getCol df k with
  | none =>
    rw [getCol_append_none _ _ _ hc,
        getCol_eq_none _ _ (fun p hp => ne_of_net_status (htail p hp) hk)]
  | some v => exact getCol_append_some _ _ _ _ hc

theorem addNetsFold_eq_append (cfgs : List (String × String × String)) (df tail : Frame)
    (hdf : ∀ p ∈ df, isNetCol p.1 = false)
    (hcf : ∀ c ∈ cfgs, isNetCol c.2.1 = false ∧ isNetCol c.2.2 = false)
    (htail : ∀ p ∈ tail, isNetCol p.1 = true)
    (hfresh : ∀ c ∈ cfgs, ∀ p ∈ tail, p.1 ≠ netName c.1)
    (hnet : ∀ c ∈ cfgs, isNetCol (netName c.1) = true)
    (hdis : cfgs.Pairwise (fun a b => netName a.1 ≠ netName b.1)) :
    addNetsFold cfgs (df ++ tail)
      = df ++ tail ++ (newNets cfgs (getNums df)).map (fun p => (p.1, ColData.nums p.2)) := by
  induction cfgs generalizing tail with
  | nil => simp [addNetsFold, newNets]
  | cons c rest ih =>
    obtain ⟨code, ec, ic⟩ := c
    have hec : isNetCol ec = false := (hcf _ (List.mem_cons_self _ _)).1
    have hic : isNetCol ic = false := (hcf _ (List.mem_cons_self _ _)).2
    have hnc : isNetCol (netName code) = true := hnet _ (List.mem_cons_self _ _)
    have hge : getNums (df ++ tail) ec = getNums df ec := by
      unfold getNums; rw [getCol_net_tail df tail ec htail hec]
    have hgi : getNums (df ++ tail) ic = getNums df ic := by
      unfold getNums; rw [getCol_net_tail df tail ic htail hic]
    have hcf2 : ∀ c ∈ rest, isNetCol c.2.1 = false ∧ isNetCol c.2.2 = false :=
      fun c hc => hcf c (List.mem_cons_of_mem _ hc)
    have hnet2 : ∀ c ∈ rest, isNetCol (netName c.1) = true :=
      fun c hc => hnet c (List.mem_cons_of_mem _ hc)
    have hdis2 : rest.Pairwise (fun a b => netName a.1 ≠ netName b.1) :=
      (List.pairwise_cons.1 hdis).2
    have hhead : ∀ b ∈ rest, netName code ≠ netName b.1 :=
      fun b hb => (List.pairwise_cons.1 hdis).1 b hb
    have hfresh2 : ∀ c ∈ rest, ∀ p ∈ tail, p.1 ≠ netName c.1 :=
      fun c hc p hp => hfresh c (List.mem_cons_of_mem _ hc) p hp
    cases he : getNums df ec with
    | none =>
      simp only [addNetsFold, hge, hgi, he]
      rw [ih tail hcf2 htail hfresh2 hnet2 hdis2]
      simp [newNets, he]
    | some ev =>
      cases hi : getNums df ic with
      | none =>
        simp only [addNetsFold, hge, hgi, he, hi]
        rw [ih tail hcf2 htail hfresh2 hnet2 hdis2]
        simp [newNets, he, hi]
      | some iv =>
        simp only [addNetsFold, hge, hgi, he, hi]
        have habs : ∀ p ∈ df ++ tail, p.1 ≠ netName code := by
          intro p hp
          rcases List.mem_append.1 hp with hp | hp
          · exact (ne_of_net_status hnc (hdf p hp)).symm
          · exact hfresh _ (List.mem_cons_self _ _) p hp
        rw [setCol_of_absent _ _ _ habs]
        have htail2 : ∀ p ∈ tail ++ [(netName code, ColData.nums (zipNet ev iv))],
            isNetCol p.1 = true := by
          intro p hp
          rcases List.mem_append.1 hp with hp | hp
          · exact htail p hp
          · simp at hp; simp [hp, hnc]
        have hfresh3 : ∀ c ∈ rest,
            ∀ p ∈ tail ++ [(netName code, ColData.nums (zipNet ev iv))], p.1 ≠ netName c.1 := by
          intro c hc p hp
          rcases List.mem_append.1 hp with hp | hp
          · exact hfresh2 c hc p hp
          · simp at hp; simp [hp]; exact hhead c hc
        have hih := ih (tail ++ [(netName code, ColData.nums (zipNet ev iv))])
          hcf2 htail2 hfresh3 hnet2 hdis2
        rw [← List.append_assoc df tail] at hih
        rw [hih]
        simp [newNets, he, hi]

theorem newNets_mem (cfgs : List (String × String × String))
    (look : String → Option (List (Option ℚ))) (p : String × List (Option ℚ))
    (h : p ∈ newNets cfgs look) :
    ∃ c ∈ cfgs, ∃ ev iv, look c.2.1 = some ev ∧ look c.2.2 = some iv ∧
      p = (netName c.1, zipNet ev iv) := by
  simp only [newNets, List.mem_filterMap] at h
  obtain ⟨c, hc, hm⟩ := h
  cases he : look c.2.1 with
  | none => rw [he] at hm; simp at hm
  | some ev =>
    cases hi : look c.2.2 with
    | none => rw [he, hi] at hm; simp at hm
    | some iv =>
      rw [he, hi] at hm
      simp at hm
      exact ⟨c, hc, ev, iv, he, hi, hm.symm⟩

theorem newNets_nil (cfgs : List (String × String × String))
    (look : String → Option (List (Option ℚ)))
    (h : ∀ c ∈ cfgs, look c.2.1 = none ∨ look c.2.2 = none) :
    newNets cfgs look = [] := by
  induction cfgs with
  | nil => rfl
  | cons c rest ih =>
    have hr := ih (fun c hc => h c (List.mem_cons_of_mem _ hc))
    rcases h c (List.mem_cons_self _ _) with hc | hc <;>
      cases he : look c.2.1 <;> cases hi : look c.2.2 <;>
      simp [newNets, he, hi] at hc ⊢ <;>
      simpa [newNets] using hr

theorem newNets_getCol (cfgs : List (String × String × String))
    (look : String → Option (List (Option ℚ))) (code ec ic : String)
    (ev iv : List (Option ℚ))
    (hmem : (code, ec, ic) ∈ cfgs)
    (hdis : cfgs.Pairwise (fun a b => netName a.1 ≠ netName b.1))
    (he : look ec = some ev) (hi : look ic = some iv) :
    getCol ((newNets cfgs look).map (fun p => (p.1, ColData.nums p.2))) (netName code)
      = some (.nums (zipNet ev iv)) := by
  induction cfgs with
  | nil => simp at hmem
  | cons c rest ih =>
    rcases List.mem_cons.1 hmem with hc | hc
    · subst hc
      simp only [newNets, List.filterMap_cons, he, hi]
      simp [getCol]
    · obtain ⟨c0, e0, i0⟩ := c
      have hne : netName c0 ≠ netName code :=
        (List.pairwise_cons.1 hdis).1 _ hc
      have ihr := ih hc (List.pairwise_cons.1 hdis).2
      cases he0 : look e0 with
      | none => simpa [newNets, he0] using ihr
      | some ev0 =>
        cases hi0 : look i0 with
        | none => simpa [newNets, he0, hi0] using ihr
        | some iv0 =>
          simp only [newNets, List.filterMap_cons, he0, hi0]
          simpa [getCol, hne] using ihr

theorem netColsOf_append (a b : Frame) :
    netColsOf (a ++ b) = netColsOf a ++ netColsOf b := by
  simp [netColsOf, List.filterMap_append]

theorem netColsOf_map_nums (l : List (String × List (Option ℚ)))
    (h : ∀ p ∈ l, isNetCol p.1 = true) :
    netColsOf (l.map (fun p => (p.1, ColData.nums p.2))) = l := by
  induction l with
  | nil => rfl
  | cons hd tl ih =>
    have hh := h hd (List.mem_cons_self _ _)
    have ih2 := ih (fun p hp => h p (List.mem_cons_of_mem _ hp))
    obtain ⟨nm, vs⟩ := hd
    simp only at hh
    simp only [netColsOf] at ih2 ⊢
    simp only [List.map_cons, List.filterMap_cons, hh, if_pos]
    rw [ih2]

theorem netColsOf_setCol_nonnet (df : Frame) (k : String) (v : ColData)
    (h : isNetCol k = false) : netColsOf (setCol df k v) = netColsOf df := by
  induction df with
  | nil =>
    cases v <;> simp [setCol, netColsOf, List.filterMap, h]
  | cons hd tl ih =>
    obtain ⟨nm, cd⟩ := hd
    by_cases hk : nm = k
    · subst hk
      cases v <;> cases cd <;> simp [setCol, netColsOf, List.filterMap_cons, h]
    · cases cd <;> simp [setCol, hk, netColsOf, List.filterMap_cons] at ih ⊢ <;> simp [ih]

/-! ## Timestamp resolution and load inversion -/

theorem resolveDT_getCol (df df1 : Frame) (dt : List (Option Nat)) (k : String)
    (h : resolveDT df = .ok (df1, dt))
    (h1 : k ≠ "datetime") (h2 : k ≠ "Date") (h3 : k ≠ "hour") :
    getCol df1 k = getCol df k := by
  unfold resolveDT at h
  cases hc : getCol df "datetime" with
  | some c =>
    rw [hc] at h
    simp only [Except.ok.injEq, Prod.mk.injEq] at h
    rw [← h.1]
    exact getCol_setCol_ne _ _ _ _ (Ne.symm h1)
  | none =>
    rw [hc] at h
    cases hd : getCol df "Date" with
    | none => rw [hd] at h; simp at h
    | some dc =>
      rw [hd] at h
      cases ht : getCol df trancheCol with
      | none => rw [ht] at h; simp at h
      | some tc =>
        rw [ht] at h
        cases hn : asNums tc with
        | none => simp [hn] at h
        | some hvs =>
          simp only [hn, Except.ok.injEq, Prod.mk.injEq] at h
          rw [← h.1]
          rw [getCol_setCol_ne _ _ _ _ (Ne.symm h1),
              getCol_setCol_ne _ _ _ _ (Ne.symm h3),
              getCol_setCol_ne _ _ _ _ (Ne.symm h2)]

theorem resolveDT_wf (df df1 : Frame) (dt : List (Option Nat)) (n : Nat)
    (hwf : WF df n) (h : resolveDT df = .ok (df1, dt)) :
    WF df1 n ∧ dt.length = n := by
  unfold resolveDT at h
  cases hc : getCol df "datetime" with
  | some c =>
    rw [hc] at h
    simp only [Except.ok.injEq, Prod.mk.injEq] at h
    have hlen : dt.length = n := by
      rw [← h.2, toDtsCoerce_length]
      exact hwf _ (getCol_mem _ _ _ hc)
    refine ⟨?_, hlen⟩
    rw [← h.1]
    exact WF_setCol _ _ _ _ hwf (by simpa [colLen, ← h.2] using hlen)
  | none =>
    rw [hc] at h
    cases hd : getCol df "Date" with
    | none => rw [hd] at h; simp at h
    | some dc =>
      rw [hd] at h
      cases ht : getCol df trancheCol with
      | none => rw [ht] at h; simp at h
      | some tc =>
        rw [ht] at h
        cases hn : asNums tc with
        | none => simp [hn] at h
        | some hvs =>
          simp only [hn, Except.ok.injEq, Prod.mk.injEq] at h
          have hdl : (toDtsCoerce dc).length = n := by
            rw [toDtsCoerce_length]; exact hwf _ (getCol_mem _ _ _ hd)
          have hhl : hvs.length = n := by
            have := hwf _ (getCol_mem _ _ _ ht)
            rw [asNums_some tc hvs hn] at this
            simpa [colLen] using this
          have hdt : dt.length = n := by
            rw [← h.2, List.length_zipWith, List.length_map, hdl, hhl]
            exact Nat.min_self n
          refine ⟨?_, hdt⟩
          rw [← h.1]
          apply WF_setCol
          · apply WF_setCol
            · exact WF_setCol _ _ _ _ hwf (by simpa [colLen] using hdl)
            · simp [colLen, hhl]
          · simpa [colLen, ← h.2] using hdt

theorem loadData_ok_inv (df out : Frame) (h : loadData df = .ok out) :
    ∃ df1 dt, resolveDT df = .ok (df1, dt) ∧
      dt.all Option.isNone = false ∧
      netColsOf (addNetsFold partnerConfigs (dropNet df1)) ≠ [] ∧
      out = addCalendar (setCol (addNetsFold partnerConfigs (dropNet df1)) "net_total"
        (.nums (netTotalCol (netColsOf (addNetsFold partnerConfigs (dropNet df1))) dt.length))) dt := by
  unfold loadData at h
  cases hres : resolveDT df with
  | error e => rw [hres] at h; simp at h
  | ok p =>
    obtain ⟨df1, dt⟩ := p
    rw [hres] at h
    by_cases hall : dt.all Option.isNone = true
    · simp [hall] at h
    · have hall2 : dt.all Option.isNone = false := by
        cases hv : dt.all Option.isNone
        · rfl
        · exact absurd hv hall
      simp only [hall2, Bool.false_eq_true, if_false] at h
      by_cases hne : (netColsOf (addNetsFold partnerConfigs (dropNet df1))).isEmpty = true
      · simp [hne] at h
      · have hne2 : (netColsOf (addNetsFold partnerConfigs (dropNet df1))).isEmpty = false := by
          cases hv : (netColsOf (addNetsFold partnerConfigs (dropNet df1))).isEmpty
          · rfl
          · exact absurd hv hne
        simp only [hne2, Bool.false_eq_true, if_false, Except.ok.injEq] at h
        refine ⟨df1, dt, rfl, hall2, ?_, h.symm⟩
        intro hnil
        rw [hnil] at hne2
        simp [List.isEmpty] at hne2

theorem getCol_addCalendar_other (df : Frame) (dt : List (Option Nat)) (k : String)
    (h1 : k ≠ "date") (h2 : k ≠ "year") (h3 : k ≠ "month") (h4 : k ≠ "day") (h5 : k ≠ "hour") :
    getCol (addCalendar df dt) k = getCol df k := by
  unfold addCalendar
  rw [getCol_setCol_ne _ _ _ _ (Ne.symm h5), getCol_setCol_ne _ _ _ _ (Ne.symm h4),
      getCol_setCol_ne _ _ _ _ (Ne.symm h3), getCol_setCol_ne _ _ _ _ (Ne.symm h2),
      getCol_setCol_ne _ _ _ _ (Ne.symm h1)]

theorem getCol_addCalendar_date (df : Frame) (dt : List (Option Nat)) :
    getCol (addCalendar df dt) "date"
      = some (.dates (dt.map (fun o => o.map (fun t => t / 24)))) := by
  unfold addCalendar
  rw [getCol_setCol_ne _ _ _ _ (by decide), getCol_setCol_ne _ _ _ _ (by decide),
      getCol_setCol_ne _ _ _ _ (by decide), getCol_setCol_ne _ _ _ _ (by decide)]
  exact getCol_setCol_self _ _ _

theorem getCol_addCalendar_year (df : Frame) (dt : List (Option Nat)) :
    getCol (addCalendar df dt) "year"
      = some (.nums (dt.map (fun o => o.map (fun t => (yearOfTs t : ℚ))))) := by
  unfold addCalendar
  rw [getCol_setCol_ne _ _ _ _ (by decide), getCol_setCol_ne _ _ _ _ (by decide),
      getCol_setCol_ne _ _ _ _ (by decide)]
  exact getCol_setCol_self _ _ _

theorem getCol_addCalendar_month (df : Frame) (dt : List (Option Nat)) :
    getCol (addCalendar df dt) "month"
      = some (.months (dt.map (fun o => o.map (fun t => (yearOfTs t, monthOfTs t))))) := by
  unfold addCalendar
  rw [getCol_setCol_ne _ _ _ _ (by decide), getCol_setCol_ne _ _ _ _ (by decide)]
  exact getCol_setCol_self _ _ _

theorem getCol_addCalendar_day (df : Frame) (dt : List (Option Nat)) :
    getCol (addCalendar df dt) "day"
      = some (.nums (dt.map (fun o => o.map (fun t => (dayOfTs t : ℚ))))) := by
  unfold addCalendar
  rw [getCol_setCol_ne _ _ _ _ (by decide)]
  exact getCol_setCol_self _ _ _

theorem getCol_addCalendar_hour (df : Frame) (dt : List (Option Nat)) :
    getCol (addCalendar df dt) "hour"
      = some (.nums (dt.map (fun o => o.map (fun t => (hourOfTs t : ℚ))))) := by
  unfold addCalendar
  exact getCol_setCol_self _ _ _

theorem resolveDT_dropNet (df : Frame) :
    resolveDT (dropNet df) = Except.map (fun p => (dropNet p.1, p.2)) (resolveDT df) := by
  unfold resolveDT
  rw [dropNet_getCol _ _ (by decide : isNetCol "datetime" = false),
      dropNet_getCol _ _ (by decide : isNetCol "Date" = false),
      dropNet_getCol _ _ (by decide : isNetCol trancheCol = false)]
  cases hc : getCol df "datetime" with
  | some c =>
    simp only [Except.map]
    rw [dropNet_setCol _ _ _ (by decide : isNetCol "datetime" = false)]
  | none =>
    cases hd : getCol df "Date" with
    | none => simp [Except.map]
    | some dc =>
      cases ht : getCol df trancheCol with
      | none => simp [Except.map]
      | some tc =>
        cases hn : asNums tc with
        | none => simp [hn, Except.map]
        | some hvs =>
          simp only [hn, Except.map]
          rw [dropNet_setCol _ _ _ (by decide : isNetCol "datetime" = false),
              dropNet_setCol _ _ _ (by decide : isNetCol "hour" = false),
              dropNet_setCol _ _ _ (by decide : isNetCol "Date" = false)]

theorem resolveDT_datetime (df df1 : Frame) (dt : List (Option Nat))
    (h : resolveDT df = .ok (df1, dt)) : getCol df1 "datetime" = some (.dts dt) := by
  unfold resolveDT at h
  cases hc : getCol df "datetime" with
  | some c =>
    rw [hc] at h
    simp only [Except.ok.injEq, Prod.mk.injEq] at h
    rw [← h.1, ← h.2]
    exact getCol_setCol_self _ _ _
  | none =>
    rw [hc] at h
    cases hd : getCol df "Date" with
    | none => rw [hd] at h; simp at h
    | some dc =>
      rw [hd] at h
      cases ht : getCol df trancheCol with
      | none => rw [ht] at h; simp at h
      | some tc =>
        rw [ht] at h
        cases hn : asNums tc with
        | none => simp [hn] at h
        | some hvs =>
          simp only [hn, Except.ok.injEq, Prod.mk.injEq] at h
          rw [← h.1, ← h.2]
          exact getCol_setCol_self _ _ _

theorem netColsOf_addCalendar (df : Frame) (dt : List (Option Nat)) :
    netColsOf (addCalendar df dt) = netColsOf df := by
  unfold addCalendar
  rw [netColsOf_setCol_nonnet _ _ _ (by decide), netColsOf_setCol_nonnet _ _ _ (by decide),
      netColsOf_setCol_nonnet _ _ _ (by decide), netColsOf_setCol_nonnet _ _ _ (by decide),
      netColsOf_setCol_nonnet _ _ _ (by decide)]

theorem WF_addCalendar (df : Frame) (dt : List (Option Nat)) (n : Nat)
    (hwf : WF df n) (hdt : dt.length = n) : WF (addCalendar df dt) n := by
  unfold addCalendar
  apply WF_setCol
  apply WF_setCol
  apply WF_setCol
  apply WF_setCol
  apply WF_setCol
  all_goals simp [colLen, hdt, hwf]

/-! ## The claims -/

/-- C7: if a timestamp schema is present (so resolution succeeds) but every
resolved timestamp is missing, the load fails with the all-`NaT` error,
whatever the number of rows. -/
theorem load_fails_when_all_NaT (df df1 : Frame) (dt : List (Option Nat))
    (hres : resolveDT df = .ok (df1, dt)) (hall : dt.all Option.isNone = true) :
    loadData df = .error "All 'datetime' values are NaT after conversion." := by
  unfold loadData
  rw [hres]
  simp [hall]

theorem load_fails_when_all_NaT_witness :
    (resolveDT wAllNaT = .ok (wAllNaT, [none, none]) ∧
      ([none, none] : List (Option Nat)).all Option.isNone = true) ∧
    loadData wAllNaT = .error "All 'datetime' values are NaT after conversion." :=
  ⟨⟨rfl, rfl⟩, load_fails_when_all_NaT wAllNaT wAllNaT [none, none] rfl rfl⟩

/-- C3: loading a raw table equals loading the same table with every
`net_*`-named column stripped first — pre-existing net columns are dropped
unconditionally and never influence the canonical result. -/
theorem load_ignores_preexisting_net (df : Frame) :
    loadData df = loadData (dropNet df) := by
  unfold loadData
  rw [resolveDT_dropNet]
  cases hres : resolveDT df with
  | error e => simp [Except.map]
  | ok p =>
    obtain ⟨df1, dt⟩ := p
    simp only [Except.map]
    rw [dropNet_idem]

/-- C9: the formatting helper picks the scale by the magnitude thresholds
10³ and 10⁶ (base unit with integer rounding below 10³, `/10³` with one
decimal in between, `/10⁶` with one decimal above), renders the four
boundary inputs accordingly, and renders the placeholder on a missing
input. -/
theorem format_mwh_thresholds :
    (∀ q : ℚ, |q| < 1000 → formatMwh (some q) = .mwh (roundHalfEven q)) ∧
    (∀ q : ℚ, 1000 ≤ |q| → |q| < 1000000 →
      formatMwh (some q) = .gwh (roundHalfEven (10 * q / 1000))) ∧
    (∀ q : ℚ, 1000000 ≤ |q| → formatMwh (some q) = .twh (roundHalfEven (10 * q / 1000000))) ∧
    formatMwh none = .placeholder ∧
    formatMwh (some 999) = .mwh 999 ∧
    formatMwh (some 1000) = .gwh 10 ∧
    formatMwh (some 999999) = .gwh 10000 ∧
    formatMwh (some 1000000) = .twh 10 := by
  refine ⟨?_, ?_, ?_, rfl, by decide, by decide, by decide, by decide⟩
  · intro q h
    simp only [formatMwh]
    rw [if_neg (not_le.2 (by linarith)), if_neg (not_le.2 (by linarith))]
  · intro q h1 h2
    simp only [formatMwh]
    rw [if_neg (not_le.2 (by linarith)), if_pos h1]
  · intro q h
    simp only [formatMwh]
    rw [if_pos h]

theorem format_mwh_thresholds_witness :
    (|(500 : ℚ)| < 1000 ∧ formatMwh (some 500) = .mwh (roundHalfEven 500)) ∧
    (1000 ≤ |(-2500 : ℚ)| ∧ |(-2500 : ℚ)| < 1000000 ∧
      formatMwh (some (-2500)) = .gwh (roundHalfEven (10 * (-2500) / 1000))) :=
  ⟨⟨by decide, format_mwh_thresholds.1 500 (by decide)⟩,
   ⟨by decide, by decide, format_mwh_thresholds.2.1 (-2500) (by decide) (by decide)⟩⟩

/-- C6 (as amended): in the split schema, when the hour-slot column is
numeric, its values are coerced row-locally — a missing slot becomes hour
0, the coerced value is the truncated rational clamped into [0, 23] — the
timestamp is `date + hour`, and missing-value coercion never fails the
load (resolution returns a table).  The original claim's stronger promise
that an unparsable hour-slot value also defaults to 0 without aborting is
false of the source, which runs `astype(float)` without coercion: see the
counterexample below. -/
theorem hour_slot_coercion (df : Frame) (dc tc : ColData) (hvs : List (Option ℚ))
    (h1 : getCol df "datetime" = none)
    (h2 : getCol df "Date" = some dc)
    (h3 : getCol df trancheCol = some tc)
    (h4 : asNums tc = some hvs) :
    (∃ df1, resolveDT df = .ok (df1,
      List.zipWith (fun d h => d.map (fun x => x + h)) (toDtsCoerce dc) (hvs.map coerceHour))) ∧
    coerceHour none = 0 ∧
    (∀ x : Option ℚ, coerceHour x ≤ 23) ∧
    (∀ q : ℚ, coerceHour (some q) = clampHour (ratTruncToInt q)) := by
  refine ⟨?_, rfl, ?_, fun q => rfl⟩
  · cases hr : resolveDT df with
    | error e =>
      exfalso
      unfold resolveDT at hr
      rw [h1, h2, h3] at hr
      simp [h4] at hr
    | ok p =>
      obtain ⟨df1, dt⟩ := p
      have hr2 := hr
      unfold resolveDT at hr2
      rw [h1, h2, h3] at hr2
      simp only [h4, Except.ok.injEq, Prod.mk.injEq] at hr2
      exact ⟨df1, by rw [hr2.2]⟩
  · intro x
    unfold coerceHour clampHour
    omega

theorem hour_slot_coercion_witness :
    (getCol wSplit "datetime" = none ∧ getCol wSplit "Date" = some (.dts wDs) ∧
      getCol wSplit trancheCol = some (.nums wHs) ∧
      asNums (ColData.nums wHs) = some wHs) ∧
    ((∃ df1, resolveDT wSplit = .ok (df1,
        List.zipWith (fun d h => d.map (fun x => x + h)) (toDtsCoerce (.dts wDs))
          (wHs.map coerceHour))) ∧
      coerceHour none = 0 ∧
      (∀ x : Option ℚ, coerceHour x ≤ 23) ∧
      (∀ q : ℚ, coerceHour (some q) = clampHour (ratTruncToInt q))) :=
  ⟨⟨rfl, rfl, rfl, rfl⟩,
   hour_slot_coercion wSplit (.dts wDs) (.nums wHs) wHs rfl rfl rfl rfl⟩

/-- C6 counterexample: a split-schema table (no combined timestamp, both a
date and an hour-slot column present) whose hour-slot column fails numeric
coercion makes the load abort with an error instead of defaulting the
value to hour 0 — refuting "such row-local coercion failures never abort
the load" as originally claimed. -/
theorem hour_slot_unparsable_aborts :
    getCol wBadHour "datetime" = none ∧
    getCol wBadHour "Date" = some (ColData.dts [some 48]) ∧
    getCol wBadHour trancheCol = some (ColData.dts [none]) ∧
    asNums (ColData.dts [none]) = none ∧
    loadData wBadHour = .error "hour-slot column failed numeric coercion" :=
  ⟨rfl, rfl, rfl, rfl, by decide⟩

/-- C8: when the timestamps resolve (and are not all missing) but no
configured partner has both of its raw flow columns present, the load fails
with the no-flow-data error instead of returning a table. -/
theorem load_fails_no_flow (df df1 : Frame) (dt : List (Option Nat))
    (hres : resolveDT df = .ok (df1, dt))
    (hsome : dt.all Option.isNone = false)
    (hnone : ∀ c ∈ partnerConfigs, getNums df c.2.1 = none ∨ getNums df c.2.2 = none) :
    loadData df
      = .error "No net_* columns could be constructed – check that the expected export/import columns exist." := by
  unfold loadData
  rw [hres]
  simp only [hsome, Bool.false_eq_true, if_false]
  have hnone1 : ∀ c ∈ partnerConfigs, getNums df1 c.2.1 = none ∨ getNums df1 c.2.2 = none := by
    intro c hc
    have hs := pc_flow_ne_special c hc
    have he : getNums df1 c.2.1 = getNums df c.2.1 := by
      unfold getNums
      rw [resolveDT_getCol df df1 dt c.2.1 hres hs.1.1 hs.1.2.1 hs.1.2.2.1]
    have hi : getNums df1 c.2.2 = getNums df c.2.2 := by
      unfold getNums
      rw [resolveDT_getCol df df1 dt c.2.2 hres hs.2.1 hs.2.2.1 hs.2.2.2.1]
    rw [he, hi]
    exact hnone c hc
  have hnone2 : ∀ c ∈ partnerConfigs,
      getNums (dropNet df1) c.2.1 = none ∨ getNums (dropNet df1) c.2.2 = none := by
    intro c hc
    have hf := pc_flows_not_net c hc
    have he : getNums (dropNet df1) c.2.1 = getNums df1 c.2.1 := by
      unfold getNums; rw [dropNet_getCol _ _ hf.1]
    have hi : getNums (dropNet df1) c.2.2 = getNums df1 c.2.2 := by
      unfold getNums; rw [dropNet_getCol _ _ hf.2]
    rw [he, hi]
    exact hnone1 c hc
  have hfold := addNetsFold_eq_append partnerConfigs (dropNet df1) []
    (dropNet_netFree df1) pc_flows_not_net (by simp) (by simp) pc_net_is_net pc_net_distinct
  rw [List.append_nil] at hfold
  rw [hfold, newNets_nil _ _ hnone2]
  simp [netColsOf_append, netColsOf_dropNet]

theorem load_fails_no_flow_witness :
    (resolveDT wNoFlow = .ok (wNoFlow, [some 5]) ∧
      ([some 5] : List (Option Nat)).all Option.isNone = false ∧
      (∀ c ∈ partnerConfigs, getNums wNoFlow c.2.1 = none ∨ getNums wNoFlow c.2.2 = none)) ∧
    loadData wNoFlow
      = .error "No net_* columns could be constructed – check that the expected export/import columns exist." :=
  ⟨⟨rfl, rfl, by decide⟩,
   load_fails_no_flow wNoFlow wNoFlow [some 5] rfl rfl (by decide)⟩

/-- C1: for a configured partner whose two raw flow columns are both
present, every row of the produced `net_<partner>` column equals the
absolute export value minus the absolute import value, a missing cell
counting as zero before the absolute values — whatever signs the raw cells
carry. -/
theorem net_sign_neutral (df out : Frame) (n : Nat) (code ec ic : String)
    (ev iv : List (Option ℚ)) (j : Nat)
    (hwf : WF df n) (hld : loadData df = .ok out)
    (hmem : (code, ec, ic) ∈ partnerConfigs)
    (he : getNums df ec = some ev) (hi : getNums df ic = some iv) (hj : j < n) :
    ∃ nv, getNums out (netName code) = some nv ∧
      nv.getD j none = some (|(ev.getD j none).getD 0| - |(iv.getD j none).getD 0|) := by
  obtain ⟨df1, dt, hres, hall, hne, hout⟩ := loadData_ok_inv df out hld
  have hs := pc_flow_ne_special _ hmem
  have hf := pc_flows_not_net _ hmem
  have he1 : getNums (dropNet df1) ec = some ev := by
    unfold getNums
    rw [dropNet_getCol _ _ hf.1, resolveDT_getCol df df1 dt ec hres hs.1.1 hs.1.2.1 hs.1.2.2.1]
    exact he
  have hi1 : getNums (dropNet df1) ic = some iv := by
    unfold getNums
    rw [dropNet_getCol _ _ hf.2, resolveDT_getCol df df1 dt ic hres hs.2.1 hs.2.2.1 hs.2.2.2.1]
    exact hi
  have hfold := addNetsFold_eq_append partnerConfigs (dropNet df1) []
    (dropNet_netFree df1) pc_flows_not_net (by simp) (by simp) pc_net_is_net pc_net_distinct
  rw [List.append_nil] at hfold
  have hnetcol : getCol (addNetsFold partnerConfigs (dropNet df1)) (netName code)
      = some (.nums (zipNet ev iv)) := by
    rw [hfold]
    rw [getCol_append_none _ _ _ (getCol_eq_none _ _
      (fun p hp => (ne_of_net_status (pc_net_is_net _ hmem) (dropNet_netFree df1 p hp)).symm))]
    exact newNets_getCol partnerConfigs (getNums (dropNet df1)) code ec ic ev iv
      hmem pc_net_distinct he1 hi1
  obtain ⟨q1, q2, q3, q4, q5, q6, q7, q8, q9⟩ := pc_net_ne_special _ hmem
  have hout2 : getCol out (netName code) = some (.nums (zipNet ev iv)) := by
    rw [hout, getCol_addCalendar_other _ _ _ q6 q7 q8 q9 q3,
        getCol_setCol_ne _ _ _ _ (Ne.symm q5)]
    exact hnetcol
  refine ⟨zipNet ev iv, by simp [getNums, hout2, asNums], ?_⟩
  have hlev : ev.length = n := getNums_length df n ec ev hwf he
  have hliv : iv.length = n := getNums_length df n ic iv hwf hi
  exact zipNet_getD ev iv j (by omega) (by omega)

theorem net_sign_neutral_witness :
    (WF wBase 2 ∧ loadData wBase = .ok wBaseOut ∧
      ("GBR", "FR vers GB (MWh)", "GB vers FR (MWh)") ∈ partnerConfigs ∧
      getNums wBase "FR vers GB (MWh)" = some [some 100, none] ∧
      getNums wBase "GB vers FR (MWh)" = some [some (-40), some 5] ∧ (0 : Nat) < 2) ∧
    (∃ nv, getNums wBaseOut (netName "GBR") = some nv ∧
      nv.getD 0 none = some
        (|(([some (100 : ℚ), none].getD 0 none).getD 0)| -
         |(([some ((-40) : ℚ), some 5].getD 0 none).getD 0)|)) :=
  ⟨⟨by decide, by decide, by decide, rfl, rfl, by decide⟩,
   net_sign_neutral wBase wBaseOut 2 "GBR" "FR vers GB (MWh)" "GB vers FR (MWh)"
     [some 100, none] [some (-40), some 5] 0
     (by decide) (by decide) (by decide) rfl rfl (by decide)⟩

/-- C2: on every row of a successfully loaded table, `net_total` is exactly
the row-wise sum of the recomputed `net_<partner>` columns — the net
columns of the output are the recomputed ones plus `net_total` itself, and
`net_total` never comes from the raw file. -/
theorem net_total_is_partner_sum (df out : Frame) (n i : Nat)
    (hwf : WF df n) (hld : loadData df = .ok out) (hi : i < n) :
    ∃ tv nets, getNums out "net_total" = some tv ∧
      netColsOf out = nets ++ [("net_total", tv)] ∧
      tv.getD i none = some ((nets.map (fun p => (p.2.getD i none).getD 0)).sum) := by
  obtain ⟨df1, dt, hres, hall, hne, hout⟩ := loadData_ok_inv df out hld
  have hdtn : dt.length = n := (resolveDT_wf df df1 dt n hwf hres).2
  have hfold := addNetsFold_eq_append partnerConfigs (dropNet df1) []
    (dropNet_netFree df1) pc_flows_not_net (by simp) (by simp) pc_net_is_net pc_net_distinct
  rw [List.append_nil] at hfold
  have habs : ∀ p ∈ addNetsFold partnerConfigs (dropNet df1), p.1 ≠ "net_total" := by
    rw [hfold]
    intro p hp
    rcases List.mem_append.1 hp with hp | hp
    · exact (ne_of_net_status (by decide) (dropNet_netFree df1 p hp)).symm
    · simp only [List.mem_map] at hp
      obtain ⟨q, hq, hpq⟩ := hp
      obtain ⟨c, hc, ev, iv, _, _, hq2⟩ := newNets_mem _ _ _ hq
      rw [← hpq, hq2]
      exact (pc_net_ne_special _ hc).2.2.2.2.1
  have hnco : netColsOf out
      = netColsOf (addNetsFold partnerConfigs (dropNet df1))
        ++ [("net_total", netTotalCol (netColsOf (addNetsFold partnerConfigs (dropNet df1))) dt.length)] := by
    rw [hout, netColsOf_addCalendar, setCol_of_absent _ _ _ habs, netColsOf_append]
    simp [netColsOf, isNetCol, listStarts]
  have hgt : getCol out "net_total"
      = some (.nums (netTotalCol (netColsOf (addNetsFold partnerConfigs (dropNet df1))) dt.length)) := by
    rw [hout, getCol_addCalendar_other _ _ _ (by decide) (by decide) (by decide) (by decide) (by decide),
        getCol_setCol_self]
  refine ⟨_, _, by simp [getNums, hgt, asNums], hnco, ?_⟩
  rw [netTotalCol_getD _ _ _ (by omega)]
  rfl

theorem net_total_is_partner_sum_witness :
    (WF wBase 2 ∧ loadData wBase = .ok wBaseOut ∧ (1 : Nat) < 2) ∧
    (∃ tv nets, getNums wBaseOut "net_total" = some tv ∧
      netColsOf wBaseOut = nets ++ [("net_total", tv)] ∧
      tv.getD 1 none = some ((nets.map (fun p => (p.2.getD 1 none).getD 0)).sum)) :=
  ⟨⟨by decide, by decide, by decide⟩,
   net_total_is_partner_sum wBase wBaseOut 2 1 (by decide) (by decide) (by decide)⟩

/-- C10: a successful load keeps every raw row: all output columns have the
raw row count, and a row whose timestamp did not resolve is kept with the
missing-timestamp marker and missing derived calendar fields instead of
being removed. -/
theorem rows_retained (df out : Frame) (n : Nat)
    (hwf : WF df n) (hld : loadData df = .ok out) :
    ∃ dtv, getCol out "datetime" = some (.dts dtv) ∧ dtv.length = n ∧ WF out n ∧
      (∀ i, dtv.getD i none = none →
        ∃ datev yearv monthv dayv hourv,
          getCol out "date" = some (.dates datev) ∧ datev.getD i none = none ∧
          getCol out "year" = some (.nums yearv) ∧ yearv.getD i none = none ∧
          getCol out "month" = some (.months monthv) ∧ monthv.getD i none = none ∧
          getCol out "day" = some (.nums dayv) ∧ dayv.getD i none = none ∧
          getCol out "hour" = some (.nums hourv) ∧ hourv.getD i none = none) := by
  obtain ⟨df1, dt, hres, hall, hne, hout⟩ := loadData_ok_inv df out hld
  obtain ⟨hwf1, hdtn⟩ := resolveDT_wf df df1 dt n hwf hres
  have hwfd : WF (dropNet df1) n := WF_dropNet _ _ hwf1
  have hfold := addNetsFold_eq_append partnerConfigs (dropNet df1) []
    (dropNet_netFree df1) pc_flows_not_net (by simp) (by simp) pc_net_is_net pc_net_distinct
  rw [List.append_nil] at hfold
  have hwf3 : WF (addNetsFold partnerConfigs (dropNet df1)) n := by
    rw [hfold]
    refine WF_append _ _ _ hwfd ?_
    intro p hp
    simp only [List.mem_map] at hp
    obtain ⟨q, hq, hpq⟩ := hp
    obtain ⟨c, hc, ev, iv, he, hi2, hq2⟩ := newNets_mem _ _ _ hq
    have hev : ev.length = n := getNums_length _ n _ ev hwfd he
    have hiv : iv.length = n := getNums_length _ n _ iv hwfd hi2
    rw [← hpq, hq2]
    simp [colLen, zipNet, List.length_zipWith, hev, hiv]
  have hdtcol : getCol out "datetime" = some (.dts dt) := by
    rw [hout, getCol_addCalendar_other _ _ _ (by decide) (by decide) (by decide) (by decide) (by decide),
        getCol_setCol_ne _ _ _ _ (by decide),
        addNetsFold_getCol_ne _ _ _ (fun c hc => (pc_net_ne_special c hc).1),
        dropNet_getCol _ _ (by decide)]
    exact resolveDT_datetime df df1 dt hres
  refine ⟨dt, hdtcol, hdtn, ?_, ?_⟩
  · rw [hout]
    apply WF_addCalendar _ _ _ _ hdtn
    apply WF_setCol _ _ _ _ hwf3
    simp [colLen, netTotalCol, hdtn]
  · intro i hnone
    refine ⟨_, _, _, _, _,
      by rw [hout]; exact getCol_addCalendar_date _ _, by rw [getD_map_opt, hnone]; rfl,
      by rw [hout]; exact getCol_addCalendar_year _ _, by rw [getD_map_opt, hnone]; rfl,
      by rw [hout]; exact getCol_addCalendar_month _ _, by rw [getD_map_opt, hnone]; rfl,
      by rw [hout]; exact getCol_addCalendar_day _ _, by rw [getD_map_opt, hnone]; rfl,
      by rw [hout]; exact getCol_addCalendar_hour _ _, by rw [getD_map_opt, hnone]; rfl⟩

theorem rows_retained_witness :
    (WF wBase 2 ∧ loadData wBase = .ok wBaseOut) ∧
    (∃ dtv, getCol wBaseOut "datetime" = some (.dts dtv) ∧ dtv.length = 2 ∧ WF wBaseOut 2 ∧
      (∀ i, dtv.getD i none = none →
        ∃ datev yearv monthv dayv hourv,
          getCol wBaseOut "date" = some (.dates datev) ∧ datev.getD i none = none ∧
          getCol wBaseOut "year" = some (.nums yearv) ∧ yearv.getD i none = none ∧
          getCol wBaseOut "month" = some (.months monthv) ∧ monthv.getD i none = none ∧
          getCol wBaseOut "day" = some (.nums dayv) ∧ dayv.getD i none = none ∧
          getCol wBaseOut "hour" = some (.nums hourv) ∧ hourv.getD i none = none)) :=
  ⟨⟨by decide, by decide⟩, rows_retained wBase wBaseOut 2 (by decide) (by decide)⟩

/-! ## Aggregation: partitioning rows into buckets preserves sums -/

theorem sum_filter_split (pairs : List (Nat × ℚ)) (k : Nat) :
    ((pairs.filter (fun p => p.1 == k)).map (fun p => p.2)).sum
      + ((pairs.filter (fun p => !(p.1 == k))).map (fun p => p.2)).sum
      = (pairs.map (fun p => p.2)).sum := by
  induction pairs with
  | nil => simp
  | cons hd tl ih =>
    by_cases h : hd.1 = k
    · simp only [List.filter_cons, h, beq_self_eq_true, Bool.not_true, if_pos, List.map_cons,
        List.sum_cons]
      simp only [if_false, Bool.false_eq_true]
      linarith [ih]
    · have hb : (hd.1 == k) = false := by simpa using h
      simp only [List.filter_cons, hb, Bool.not_false, if_pos, List.map_cons, List.sum_cons]
      simp only [if_false, Bool.false_eq_true]
      linarith [ih]

theorem filter_ne_comm (pairs : List (Nat × ℚ)) (k j : Nat) (h : j ≠ k) :
    ((pairs.filter (fun p => !(p.1 == k))).filter (fun p => p.1 == j))
      = pairs.filter (fun p => p.1 == j) := by
  induction pairs with
  | nil => rfl
  | cons hd tl ih =>
    by_cases h1 : hd.1 = k
    · have h2 : (hd.1 == j) = false := by simp [h1]; exact fun hh => h hh.symm
      simp [List.filter_cons, h1, h2, ih, h, Ne.symm h]
    · by_cases h2 : hd.1 = j <;> simp [List.filter_cons, h1, h2, ih, h, Ne.symm h]

theorem sum_fiberwise (ks : List Nat) (pairs : List (Nat × ℚ))
    (hnd : ks.Nodup) (hcov : ∀ p ∈ pairs, p.1 ∈ ks) :
    (ks.map (fun k => ((pairs.filter (fun p => p.1 == k)).map (fun p => p.2)).sum)).sum
      = (pairs.map (fun p => p.2)).sum := by
  induction ks generalizing pairs with
  | nil =>
    cases pairs with
    | nil => simp
    | cons p ps => exact absurd (hcov p (List.mem_cons_self _ _)) (by simp)
  | cons k ks ih =>
    have hkn : k ∉ ks := (List.nodup_cons.1 hnd).1
    have hnd2 := (List.nodup_cons.1 hnd).2
    rw [List.map_cons, List.sum_cons]
    have hmap : ks.map (fun j => ((pairs.filter (fun p => p.1 == j)).map (fun p => p.2)).sum)
        = ks.map (fun j =>
            (((pairs.filter (fun p => !(p.1 == k))).filter (fun p => p.1 == j)).map
              (fun p => p.2)).sum) := by
      refine List.map_congr_left ?_
      intro j hj
      rw [filter_ne_comm pairs k j (fun hh => hkn (hh ▸ hj))]
    have hcov2 : ∀ p ∈ pairs.filter (fun p => !(p.1 == k)), p.1 ∈ ks := by
      intro p hp
      have hmem := List.mem_of_mem_filter hp
      have hprop := List.of_mem_filter hp
      have hne : p.1 ≠ k := by simpa using hprop
      rcases List.mem_cons.1 (hcov p hmem) with hh | hh
      · exact absurd hh hne
      · exact hh
    rw [hmap, ih _ hnd2 hcov2, sum_filter_split]

theorem validPairs_snd_sum (dt : List (Option Nat)) (vs : List (Option ℚ)) (g : Freq) :
    ((validPairs dt vs g).map (fun p => p.2)).sum = validSum dt vs := by
  induction dt generalizing vs with
  | nil => simp [validPairs, validSum]
  | cons o dtl ih =>
    cases vs with
    | nil => simp [validPairs, validSum]
    | cons v vsl =>
      cases o with
      | some t =>
        simp only [validPairs, validSum, List.zip_cons_cons, List.filterMap_cons] at ih ⊢
        simp only [List.map_cons, List.sum_cons]
        rw [ih]
      | none =>
        simp only [validPairs, validSum, List.zip_cons_cons, List.filterMap_cons] at ih ⊢
        rw [ih]

theorem validPairs_key_mem (dt : List (Option Nat)) (vs : List (Option ℚ)) (g : Freq)
    (p : Nat × ℚ) (h : p ∈ validPairs dt vs g) : p.1 ∈ bucketKeys dt g := by
  simp only [validPairs, List.mem_filterMap] at h
  obtain ⟨q, hq, hm⟩ := h
  cases hqt : q.1 with
  | none => rw [hqt] at hm; simp at hm
  | some t =>
    rw [hqt] at hm
    simp only [Option.some.injEq] at hm
    have hqdt : some t ∈ dt := by
      have := (List.of_mem_zip hq).1
      rwa [hqt] at this
    have ht2 : t ∈ dt.filterMap id := List.mem_filterMap.2 ⟨some t, hqdt, rfl⟩
    rw [← hm]
    exact List.mem_dedup.2 (List.mem_map.2 ⟨t, ht2, rfl⟩)

theorem validSum_all_some (dt : List (Option Nat)) (vs : List (Option ℚ))
    (hall : dt.all Option.isSome = true) (hlen : dt.length = vs.length) :
    validSum dt vs = (vs.map (fun o => o.getD 0)).sum := by
  induction dt generalizing vs with
  | nil =>
    cases vs with
    | nil => simp [validSum]
    | cons v vsl => simp at hlen
  | cons o dtl ih =>
    cases vs with
    | nil => simp at hlen
    | cons v vsl =>
      simp only [List.all_cons, Bool.and_eq_true] at hall
      cases o with
      | none => simp [Option.isSome] at hall
      | some t =>
        simp only [validSum, List.zip_cons_cons, List.filterMap_cons, List.map_cons,
          List.sum_cons] at ih ⊢
        rw [ih vsl hall.2 (by simpa using hlen)]

theorem keptCols_split (df : Frame) (nm : String) (vs : List (Option ℚ))
    (hg : getNums df nm = some vs) (hk : aggKeep nm = true) :
    ∃ pre post, keptCols df = pre ++ (nm, vs) :: post ∧ ∀ p ∈ pre, p.1 ≠ nm := by
  induction df with
  | nil => simp [getNums, getCol] at hg
  | cons hd tl ih =>
    obtain ⟨nm0, cd0⟩ := hd
    by_cases h0 : nm0 = nm
    · subst h0
      have hcd : asNums cd0 = some vs := by simpa [getNums, getCol] using hg
      have := asNums_some _ _ hcd
      subst this
      exact ⟨[], keptCols tl, by simp [keptCols, List.filterMap_cons, hk], by simp⟩
    · have hg2 : getNums tl nm = some vs := by simpa [getNums, getCol, h0] using hg
      obtain ⟨pre, post, heq, hpre⟩ := ih hg2
      cases cd0 with
      | nums vs0 =>
        by_cases hkp : aggKeep nm0 = true
        · refine ⟨(nm0, vs0) :: pre, post, ?_, ?_⟩
          · simp only [keptCols, List.filterMap_cons, hkp, if_pos]
            simp only [keptCols] at heq
            rw [heq]
            rfl
          · intro p hp
            rcases List.mem_cons.1 hp with hh | hh
            · rw [hh]; exact h0
            · exact hpre p hh
        · have hkp2 : aggKeep nm0 = false := by
            cases hv : aggKeep nm0
            · rfl
            · exact absurd hv hkp
          refine ⟨pre, post, ?_, hpre⟩
          simp only [keptCols, List.filterMap_cons, hkp2]
          simp only [keptCols] at heq
          simpa using heq
      | dts vs0 =>
        refine ⟨pre, post, ?_, hpre⟩
        simp only [keptCols, List.filterMap_cons]
        simp only [keptCols] at heq
        simpa using heq
      | dates vs0 =>
        refine ⟨pre, post, ?_, hpre⟩
        simp only [keptCols, List.filterMap_cons]
        simp only [keptCols] at heq
        simpa using heq
      | months vs0 =>
        refine ⟨pre, post, ?_, hpre⟩
        simp only [keptCols, List.filterMap_cons]
        simp only [keptCols] at heq
        simpa using heq

theorem getNums_aggregate (df : Frame) (g : Freq) (dt : List (Option Nat))
    (nm : String) (vs : List (Option ℚ))
    (hdt : getCol df "datetime" = some (.dts dt))
    (hnm : nm ≠ "datetime") (hk : aggKeep nm = true)
    (hg : getNums df nm = some vs) :
    getNums (aggregate df g) nm
      = some ((bucketKeys dt g).map (fun k => some (bucketSum dt vs g k))) := by
  obtain ⟨pre, post, heq, hpre⟩ := keptCols_split df nm vs hg hk
  simp only [aggregate, hdt]
  rw [heq]
  simp only [List.map_append, List.map_cons]
  unfold getNums
  have hskip : ∀ p ∈ (pre.map (fun p => (p.1,
      ColData.nums ((bucketKeys dt g).map (fun k => some (bucketSum dt p.2 g k)))))), p.1 ≠ nm := by
    intro p hp
    simp only [List.mem_map] at hp
    obtain ⟨q, hq, hpq⟩ := hp
    rw [← hpq]
    exact hpre q hq
  simp only [getCol, if_neg (Ne.symm hnm)]
  rw [List.append_eq]
  rw [getCol_append_some _ _ _ (ColData.nums
      ((bucketKeys dt g).map (fun k => some (bucketSum dt vs g k))))
    (by rw [getCol_skip _ _ _ hskip]; simp [getCol])]
  simp [asNums]

/-- C4: for any table carrying a resolved timestamp column and a
`net_total` column, the aggregated `net_total` summed over all buckets
equals the canonical `net_total` summed over the rows with a resolved
timestamp (hence over all rows when every timestamp resolved), for every
granularity, and re-running aggregation on the same input gives the same
result. -/
theorem aggregate_preserves_net_total (df : Frame) (g : Freq)
    (dt : List (Option Nat)) (tv : List (Option ℚ))
    (hdt : getCol df "datetime" = some (.dts dt))
    (htv : getNums df "net_total" = some tv) :
    ∃ av, getNums (aggregate df g) "net_total" = some av ∧
      (av.map (fun o => o.getD 0)).sum = validSum dt tv ∧
      (dt.all Option.isSome = true → dt.length = tv.length →
        (av.map (fun o => o.getD 0)).sum = (tv.map (fun o => o.getD 0)).sum) ∧
      aggregate df g = aggregate df g := by
  refine ⟨_, getNums_aggregate df g dt "net_total" tv hdt (by decide) (by decide) htv, ?_⟩
  have hsum : (((bucketKeys dt g).map (fun k => some (bucketSum dt tv g k))).map
      (fun o => o.getD 0)).sum = validSum dt tv := by
    rw [List.map_map]
    have hcomp : ((fun o => Option.getD o 0) ∘ fun k => some (bucketSum dt tv g k))
        = fun k => bucketSum dt tv g k := by
      funext k
      simp
    rw [hcomp]
    have hfib := sum_fiberwise (bucketKeys dt g) (validPairs dt tv g)
      (List.nodup_dedup _) (fun p hp => validPairs_key_mem dt tv g p hp)
    rw [← validPairs_snd_sum dt tv g]
    simpa [bucketSum] using hfib
  exact ⟨hsum, fun hall hlen => by rw [hsum, validSum_all_some dt tv hall hlen], rfl⟩

theorem aggregate_preserves_net_total_witness :
    (getCol wAgg "datetime" = some (.dts [some 0, some 1, some 25]) ∧
      getNums wAgg "net_total" = some [some 2, some 3, some 4]) ∧
    (∃ av, getNums (aggregate wAgg .D) "net_total" = some av ∧
      (av.map (fun o => o.getD 0)).sum = validSum [some 0, some 1, some 25] [some 2, some 3, some 4] ∧
      (([some 0, some 1, some 25] : List (Option Nat)).all Option.isSome = true →
        ([some 0, some 1, some 25] : List (Option Nat)).length
          = ([some 2, some 3, some 4] : List (Option ℚ)).length →
        (av.map (fun o => o.getD 0)).sum
          = (([some 2, some 3, some 4] : List (Option ℚ)).map (fun o => o.getD 0)).sum) ∧
      aggregate wAgg .D = aggregate wAgg .D) :=
  ⟨⟨rfl, rfl⟩,
   aggregate_preserves_net_total wAgg .D [some 0, some 1, some 25] [some 2, some 3, some 4] rfl rfl⟩

/-! ## Schema equivalence -/

theorem getCol_cons_self (k : String) (cd : ColData) (rest : Frame) :
    getCol ((k, cd) :: rest) k = some cd := by simp [getCol]

theorem getCol_cons_ne (nm : String) (cd : ColData) (rest : Frame) (k : String) (h : nm ≠ k) :
    getCol ((nm, cd) :: rest) k = getCol rest k := by simp [getCol, h]

theorem setCol_cons_self (k : String) (cd v : ColData) (rest : Frame) :
    setCol ((k, cd) :: rest) k v = (k, v) :: rest := by simp [setCol]

theorem getCol_append_small (a b : Frame) (k : String) (hb : ∀ p ∈ b, p.1 ≠ k) :
    getCol (a ++ b) k = getCol a k := by
  cases hc : getCol a k with
  | none => rw [getCol_append_none _ _ _ hc, getCol_eq_none b k hb]
  | some v => rw [getCol_append_some _ _ _ _ hc]

theorem newNets_congr (cfgs : List (String × String × String))
    (look1 look2 : String → Option (List (Option ℚ)))
    (h : ∀ c ∈ cfgs, look1 c.2.1 = look2 c.2.1 ∧ look1 c.2.2 = look2 c.2.2) :
    newNets cfgs look1 = newNets cfgs look2 := by
  induction cfgs with
  | nil => rfl
  | cons c restc ih =>
    have hc := h c (List.mem_cons_self _ _)
    have ihr := ih (fun c hcm => h c (List.mem_cons_of_mem _ hcm))
    simp only [newNets, List.filterMap_cons, hc.1, hc.2] at ihr ⊢
    rw [ihr]

theorem newNets_netish (look : String → Option (List (Option ℚ)))
    (p : String × List (Option ℚ)) (h : p ∈ newNets partnerConfigs look) :
    isNetCol p.1 = true := by
  obtain ⟨c, hc, ev, iv, _, _, hp⟩ := newNets_mem _ _ _ h
  rw [hp]
  exact pc_net_is_net _ hc

/-- C5: a combined-timestamp table and a date-plus-hour-slot table that
encode the same instants (the combined timestamps equal the composed
`date + coerced hour` ones) and carry the same remaining columns load to
identical canonical fields: same resolved timestamps, same per-partner
nets, same `net_total`, same derived calendar columns — and one load
succeeds exactly when the other does. -/
theorem schema_equivalence (rest : Frame) (vs ds : List (Option Nat)) (hs : List (Option ℚ))
    (hre : ∀ p ∈ rest, p.1 ≠ "datetime" ∧ p.1 ≠ "Date" ∧ p.1 ≠ trancheCol ∧ p.1 ≠ "hour")
    (hvs : vs = List.zipWith (fun d h => d.map (fun x => x + h)) ds (hs.map coerceHour)) :
    canonOf (loadData (("datetime", ColData.dts vs) :: rest))
      = canonOf (loadData (("Date", ColData.dts ds) :: (trancheCol, ColData.nums hs) :: rest)) := by
  set hourCol : ColData
    := ColData.nums ((hs.map coerceHour).map (fun (h : Nat) => some (h : ℚ))) with hhc
  set A : Frame := ("datetime", ColData.dts vs) :: rest with hAdef
  set B : Frame := ("Date", ColData.dts ds) :: (trancheCol, ColData.nums hs) :: rest with hBdef
  have hr1 : resolveDT A = .ok (A, vs) := by
    unfold resolveDT
    rw [hAdef, getCol_cons_self]
    simp only [toDtsCoerce, setCol_cons_self]
  have hnohour : ∀ p ∈ B, p.1 ≠ "hour" := by
    intro p hp
    rw [hBdef] at hp
    rcases List.mem_cons.1 hp with hp | hp
    · rw [hp]; exact (by decide : ("Date" : String) ≠ "hour")
    · rcases List.mem_cons.1 hp with hp | hp
      · rw [hp]; exact (by decide : trancheCol ≠ "hour")
      · exact (hre p hp).2.2.2
  have hnodt : ∀ p ∈ B ++ [("hour", hourCol)], p.1 ≠ "datetime" := by
    intro p hp
    rcases List.mem_append.1 hp with hp | hp
    · rw [hBdef] at hp
      rcases List.mem_cons.1 hp with hp | hp
      · rw [hp]; exact (by decide : ("Date" : String) ≠ "datetime")
      · rcases List.mem_cons.1 hp with hp | hp
        · rw [hp]; exact (by decide : trancheCol ≠ "datetime")
        · exact (hre p hp).1
    · simp at hp; rw [hp]; exact (by decide : ("hour" : String) ≠ "datetime")
  have hr2 : resolveDT B
      = .ok ((B ++ [("hour", hourCol)]) ++ [("datetime", ColData.dts vs)], vs) := by
    unfold resolveDT
    have h1 : getCol B "datetime" = none := by
      rw [hBdef, getCol_cons_ne _ _ _ _ (by decide), getCol_cons_ne _ _ _ _ (by decide)]
      exact getCol_eq_none rest _ (fun p hp => (hre p hp).1)
    have h2 : getCol B "Date" = some (ColData.dts ds) := by
      rw [hBdef]; exact getCol_cons_self _ _ _
    have h3 : getCol B trancheCol = some (ColData.nums hs) := by
      rw [hBdef, getCol_cons_ne _ _ _ _ (by decide)]
      exact getCol_cons_self _ _ _
    rw [h1, h2, h3]
    simp only [asNums, toDtsCoerce]
    have hs1 : setCol B "Date" (ColData.dts ds) = B := by
      rw [hBdef, setCol_cons_self]
    rw [hs1, setCol_of_absent _ _ _ hnohour, setCol_of_absent _ _ _ hnodt, ← hvs]
  unfold loadData
  rw [hr1, hr2]
  by_cases hall : vs.all Option.isNone = true
  · simp [hall]
  · have hall2 : vs.all Option.isNone = false := by
      cases hv : vs.all Option.isNone
      · rfl
      · exact absurd hv hall
    simp only [hall2, Bool.false_eq_true, if_false]
    set B2 : Frame := (B ++ [("hour", hourCol)]) ++ [("datetime", ColData.dts vs)] with hB2def
    have hdA : dropNet A = ("datetime", ColData.dts vs) :: dropNet rest := by
      rw [hAdef]
      simp [dropNet, List.filter_cons, (by decide : isNetCol "datetime" = false)]
    have hdB2 : dropNet B2 = ("Date", ColData.dts ds) :: (trancheCol, ColData.nums hs) ::
        (dropNet rest ++ [("hour", hourCol), ("datetime", ColData.dts vs)]) := by
      rw [hB2def, hBdef]
      simp [dropNet, List.filter_append, List.filter_cons,
        (by decide : isNetCol "datetime" = false), (by decide : isNetCol "Date" = false),
        (by decide : isNetCol trancheCol = false), (by decide : isNetCol "hour" = false)]
    have hlookeq : ∀ c ∈ partnerConfigs,
        getNums (dropNet A) c.2.1 = getNums (dropNet B2) c.2.1 ∧
        getNums (dropNet A) c.2.2 = getNums (dropNet B2) c.2.2 := by
      intro c hc
      obtain ⟨⟨e1, e2, e3, e4⟩, ⟨i1, i2, i3, i4⟩⟩ := pc_flow_ne_special c hc
      have hside1 : ∀ p ∈ [("hour", hourCol), ("datetime", ColData.dts vs)], p.1 ≠ c.2.1 := by
        intro p hp
        rcases List.mem_cons.1 hp with hp | hp
        · rw [hp]; exact Ne.symm e3
        · simp at hp; rw [hp]; exact Ne.symm e1
      have hside2 : ∀ p ∈ [("hour", hourCol), ("datetime", ColData.dts vs)], p.1 ≠ c.2.2 := by
        intro p hp
        rcases List.mem_cons.1 hp with hp | hp
        · rw [hp]; exact Ne.symm i3
        · simp at hp; rw [hp]; exact Ne.symm i1
      constructor
      · unfold getNums
        rw [hdA, hdB2, getCol_cons_ne _ _ _ _ (Ne.symm e1), getCol_cons_ne _ _ _ _ (Ne.symm e2),
            getCol_cons_ne _ _ _ _ (Ne.symm e4), getCol_append_small _ _ _ hside1]
      · unfold getNums
        rw [hdA, hdB2, getCol_cons_ne _ _ _ _ (Ne.symm i1), getCol_cons_ne _ _ _ _ (Ne.symm i2),
            getCol_cons_ne _ _ _ _ (Ne.symm i4), getCol_append_small _ _ _ hside2]
    have hfoldA := addNetsFold_eq_append partnerConfigs (dropNet A) []
      (dropNet_netFree A) pc_flows_not_net (by simp) (by simp) pc_net_is_net pc_net_distinct
    rw [List.append_nil] at hfoldA
    have hfoldB := addNetsFold_eq_append partnerConfigs (dropNet B2) []
      (dropNet_netFree B2) pc_flows_not_net (by simp) (by simp) pc_net_is_net pc_net_distinct
    rw [List.append_nil] at hfoldB
    have hnn : newNets partnerConfigs (getNums (dropNet B2))
        = newNets partnerConfigs (getNums (dropNet A)) :=
      (newNets_congr _ _ _ hlookeq).symm
    rw [hnn] at hfoldB
    have hnetsA : netColsOf (addNetsFold partnerConfigs (dropNet A))
        = newNets partnerConfigs (getNums (dropNet A)) := by
      rw [hfoldA, netColsOf_append, netColsOf_dropNet,
          netColsOf_map_nums _ (fun p hp => newNets_netish _ p hp)]
      simp
    have hnetsB : netColsOf (addNetsFold partnerConfigs (dropNet B2))
        = newNets partnerConfigs (getNums (dropNet A)) := by
      rw [hfoldB, netColsOf_append, netColsOf_dropNet,
          netColsOf_map_nums _ (fun p hp => newNets_netish _ p hp)]
      simp
    rw [hnetsA, hnetsB, hfoldA, hfoldB]
    by_cases hemp : (newNets partnerConfigs (getNums (dropNet A))).isEmpty = true
    · simp [hemp]
    · have hemp2 : (newNets partnerConfigs (getNums (dropNet A))).isEmpty = false := by
        cases hv : (newNets partnerConfigs (getNums (dropNet A))).isEmpty
        · rfl
        · exact absurd hv hemp
      simp only [hemp2, Bool.false_eq_true, if_false]
      set NN : Frame := (newNets partnerConfigs (getNums (dropNet A))).map
        (fun p => (p.1, ColData.nums p.2)) with hNNdef
      set V : ColData := ColData.nums
        (netTotalCol (newNets partnerConfigs (getNums (dropNet A))) vs.length) with hVdef
      have hrestFree : ∀ p ∈ dropNet rest, isNetCol p.1 = false := dropNet_netFree rest
      have hrestDT : ∀ p ∈ dropNet rest, p.1 ≠ "datetime" :=
        fun p hp => (hre p (List.mem_of_mem_filter hp)).1
      have hFA_dt : getCol (dropNet A ++ NN) "datetime" = some (ColData.dts vs) := by
        rw [hdA, List.cons_append]
        exact getCol_cons_self _ _ _
      have hFB_dt : getCol (dropNet B2 ++ NN) "datetime" = some (ColData.dts vs) := by
        rw [hdB2]
        rw [List.cons_append, List.cons_append,
            getCol_cons_ne _ _ _ _ (by decide), getCol_cons_ne _ _ _ _ (by decide),
            List.append_assoc,
            getCol_skip (dropNet rest) _ _ hrestDT]
        rw [List.cons_append, getCol_cons_ne _ _ _ _ (by decide), List.cons_append]
        exact getCol_cons_self _ _ _
      have hnetk : ∀ k, isNetCol k = true → getCol (dropNet A ++ NN) k
          = getCol (dropNet B2 ++ NN) k := by
        intro k hk
        have hrestK : ∀ p ∈ dropNet rest, p.1 ≠ k :=
          fun p hp => Ne.symm (ne_of_net_status hk (hrestFree p hp))
        rw [hdA, hdB2]
        rw [List.cons_append,
            getCol_cons_ne _ _ _ _ (Ne.symm (ne_of_net_status hk (by decide))),
            getCol_append_none _ _ _ (getCol_eq_none _ _ hrestK)]
        rw [List.cons_append, List.cons_append,
            getCol_cons_ne _ _ _ _ (Ne.symm (ne_of_net_status hk (by decide))),
            getCol_cons_ne _ _ _ _ (Ne.symm (ne_of_net_status hk (by decide))),
            List.append_assoc,
            getCol_skip (dropNet rest) _ _ hrestK]
        rw [List.cons_append, getCol_cons_ne _ _ _ _ (Ne.symm (ne_of_net_status hk (by decide))),
            List.cons_append, getCol_cons_ne _ _ _ _ (Ne.symm (ne_of_net_status hk (by decide))),
            List.nil_append]
      unfold canonOf
      simp only [Except.map]
      congr 1
      apply List.map_congr_left
      intro k hk
      fin_cases hk
      · refine congrArg (Prod.mk "datetime") ?_
        rw [getCol_addCalendar_other _ _ _ (by decide) (by decide) (by decide) (by decide) (by decide),
            getCol_addCalendar_other _ _ _ (by decide) (by decide) (by decide) (by decide) (by decide),
            getCol_setCol_ne _ _ _ _ (by decide), getCol_setCol_ne _ _ _ _ (by decide),
            hFA_dt, hFB_dt]
      · refine congrArg (Prod.mk "net_GBR") ?_
        rw [getCol_addCalendar_other _ _ _ (by decide) (by decide) (by decide) (by decide) (by decide),
            getCol_addCalendar_other _ _ _ (by decide) (by decide) (by decide) (by decide) (by decide),
            getCol_setCol_ne _ _ _ _ (by decide), getCol_setCol_ne _ _ _ _ (by decide)]
        exact hnetk _ (by decide)
      · refine congrArg (Prod.mk "net_CHE") ?_
        rw [getCol_addCalendar_other _ _ _ (by decide) (by decide) (by decide) (by decide) (by decide),
            getCol_addCalendar_other _ _ _ (by decide) (by decide) (by decide) (by decide) (by decide),
            getCol_setCol_ne _ _ _ _ (by decide), getCol_setCol_ne _ _ _ _ (by decide)]
        exact hnetk _ (by decide)
      · refine congrArg (Prod.mk "net_ITA") ?_
        rw [getCol_addCalendar_other _ _ _ (by decide) (by decide) (by decide) (by decide) (by decide),
            getCol_addCalendar_other _ _ _ (by decide) (by decide) (by decide) (by decide) (by decide),
            getCol_setCol_ne _ _ _ _ (by decide), getCol_setCol_ne _ _ _ _ (by decide)]
        exact hnetk _ (by decide)
      · refine congrArg (Prod.mk "net_ESP") ?_
        rw [getCol_addCalendar_other _ _ _ (by decide) (by decide) (by decide) (by decide) (by decide),
            getCol_addCalendar_other _ _ _ (by decide) (by decide) (by decide) (by decide) (by decide),
            getCol_setCol_ne _ _ _ _ (by decide), getCol_setCol_ne _ _ _ _ (by decide)]
        exact hnetk _ (by decide)
      · refine congrArg (Prod.mk "net_CWE/Core") ?_
        rw [getCol_addCalendar_other _ _ _ (by decide) (by decide) (by decide) (by decide) (by decide),
            getCol_addCalendar_other _ _ _ (by decide) (by decide) (by decide) (by decide) (by decide),
            getCol_setCol_ne _ _ _ _ (by decide), getCol_setCol_ne _ _ _ _ (by decide)]
        exact hnetk _ (by decide)
      · refine congrArg (Prod.mk "net_total") ?_
        rw [getCol_addCalendar_other _ _ _ (by decide) (by decide) (by decide) (by decide) (by decide),
            getCol_addCalendar_other _ _ _ (by decide) (by decide) (by decide) (by decide) (by decide),
            getCol_setCol_self, getCol_setCol_self]
      · exact congrArg (Prod.mk "date") (by rw [getCol_addCalendar_date, getCol_addCalendar_date])
      · exact congrArg (Prod.mk "year") (by rw [getCol_addCalendar_year, getCol_addCalendar_year])
      · exact congrArg (Prod.mk "month") (by rw [getCol_addCalendar_month, getCol_addCalendar_month])
      · exact congrArg (Prod.mk "day") (by rw [getCol_addCalendar_day, getCol_addCalendar_day])
      · exact congrArg (Prod.mk "hour") (by rw [getCol_addCalendar_hour, getCol_addCalendar_hour])

theorem schema_equivalence_witness :
    ((∀ p ∈ wRest, p.1 ≠ "datetime" ∧ p.1 ≠ "Date" ∧ p.1 ≠ trancheCol ∧ p.1 ≠ "hour") ∧
      ([some 71] : List (Option Nat))
        = List.zipWith (fun d h => d.map (fun x => x + h)) wDs (wHs.map coerceHour)) ∧
    canonOf (loadData (("datetime", ColData.dts [some 71]) :: wRest))
      = canonOf (loadData (("Date", ColData.dts wDs) :: (trancheCol, ColData.nums wHs) :: wRest)) :=
  ⟨⟨by decide, by decide⟩, schema_equivalence wRest [some 71] wDs wHs (by decide) (by decide)⟩

end PowerFlow
